import Mathlib

/-!
Verification of the speculative-decoding backend (rejection sampler,
metrics tracker, and speculator round loop) against its specification.

The Python sources are embedded shallowly:
* floats are idealised as real numbers (`ℝ`) for logprobs and as rationals
  (`ℚ`) for latency bookkeeping;
* Python's global `random.random()` stream is made explicit as an injected
  draw stream `rands : ℕ → ℝ` consumed left to right (one draw per
  probabilistic acceptance test);
* `math.exp` is idealised as `Real.exp`;
* dictionaries of top logprobs are association lists `List (String × ℝ)`;
* collaborator calls (draft model, target model, tokeniser) are provided by
  the environment: per-round results are inputs, tokenise/decode are
  function parameters, and collaborator failures are `Except` values.
-/

/-- `schemas.TokenStatus`. -/
inductive TokenStatus where
  | pending
  | accepted
  | rejected
  | resampled
  | bonus
deriving DecidableEq

/-- `schemas.TopToken`. -/
structure TopToken where
  token : String
  logprob : ℝ

/-- Draft-side input of `run_rejection_sampling` (fields of the
`{token_str, token_id, logprob}` records built in `_run_rejection_sampling`). -/
structure DraftInput where
  token_str : String
  token_id : ℤ
  logprob : ℝ

/-- Target-side input of `run_rejection_sampling` (fields of the
`{token_str, top_logprobs}` records; the logprob dict is an assoc list). -/
structure TargetInput where
  token_str : String
  top_logprobs : List (String × ℝ)

/-- `rejection_sampling.ComparisonResult`. -/
structure ComparisonResult where
  position : ℕ
  status : TokenStatus
  draft_token : String
  final_token : String
  final_token_id : Option ℤ
  draft_logprob : ℝ
  target_logprob : Option ℝ
  acceptance_prob : Option ℝ

/-- `rejection_sampling.RoundResult`. -/
structure RoundResult where
  comparisons : List ComparisonResult
  accepted_count : ℕ
  bonus_token : Option String
  bonus_token_id : Option ℤ

/-- Python dict membership/access `top_logprobs.get(key)` on the assoc list. -/
def lookupStr (m : List (String × ℝ)) (key : String) : Option ℝ :=
  match m with
  | [] => none
  | (k, v) :: rest => if key = k then some v else lookupStr rest key

/-- Outcome of one iteration of the `for` loop of `run_rejection_sampling`:
either one accepted comparison (continue) or a rejected/resampled pair
(break).  The boolean records whether `random.random()` was consumed. -/
inductive StepResult where
  | accept (c : ComparisonResult) (usedDraw : Bool)
  | reject (c1 c2 : ComparisonResult) (usedDraw : Bool)

/-- Body of the `for` loop of `run_rejection_sampling` at position `i` with
uniform draw `u` (cases 1–3 of the algorithm). -/
noncomputable def samplePosition (u : ℝ) (i : ℕ) (draft : DraftInput)
    (target : TargetInput) : StepResult :=
  if draft.token_str = target.token_str then
    -- Case 1: exact match
    .accept
      ⟨i, .accepted, draft.token_str, draft.token_str, some draft.token_id,
        draft.logprob, lookupStr target.top_logprobs draft.token_str, some 1⟩
      false
  else
    match lookupStr target.top_logprobs draft.token_str with
    | some target_lp =>
      -- Case 2: draft token in target's top logprobs
      let acceptance_prob := min 1 (Real.exp (target_lp - draft.logprob))
      if u < acceptance_prob then
        .accept
          ⟨i, .accepted, draft.token_str, draft.token_str, some draft.token_id,
            draft.logprob, some target_lp, some acceptance_prob⟩
          true
      else
        .reject
          ⟨i, .rejected, draft.token_str, target.token_str, some draft.token_id,
            draft.logprob, some target_lp, some acceptance_prob⟩
          ⟨i, .resampled, draft.token_str, target.token_str, none,
            draft.logprob, lookupStr target.top_logprobs target.token_str, some 0⟩
          true
    | none =>
      -- Case 3: not in top-20 → reject
      .reject
        ⟨i, .rejected, draft.token_str, target.token_str, some draft.token_id,
          draft.logprob, none, some 0⟩
        ⟨i, .resampled, draft.token_str, target.token_str, none,
          draft.logprob, lookupStr target.top_logprobs target.token_str, some 0⟩
        false

/-- The `for` loop of `run_rejection_sampling`: position counter `i`, draw
counter `draws`; returns the comparison list and the accepted count.  The
loop breaks when target positions run out or on the first rejection. -/
noncomputable def runAux (rands : ℕ → ℝ) :
    List DraftInput → List TargetInput → ℕ → ℕ →
    List ComparisonResult × ℕ
  | [], _, _, _ => ([], 0)
  | _ :: _, [], _, _ => ([], 0)
  | draft :: drafts, target :: targets, i, draws =>
    match samplePosition (rands draws) i draft target with
    | .accept c usedDraw =>
      let rest := runAux rands drafts targets (i + 1)
        (draws + (if usedDraw then 1 else 0))
      (c :: rest.1, rest.2 + 1)
    | .reject c1 c2 _ => ([c1, c2], 0)

/-- `rejection_sampling.run_rejection_sampling`, with the global PRNG made
explicit as the injected draw stream `rands`. -/
noncomputable def run_rejection_sampling (rands : ℕ → ℝ)
    (draft_tokens : List DraftInput) (target_positions : List TargetInput) :
    RoundResult :=
  let r := runAux rands draft_tokens target_positions 0 0
  if r.2 = draft_tokens.length ∧ draft_tokens.length < target_positions.length then
    match target_positions.get? draft_tokens.length with
    | some bonus_pos => ⟨r.1, r.2, some bonus_pos.token_str, none⟩
    | none => ⟨r.1, r.2, none, none⟩
  else ⟨r.1, r.2, none, none⟩

/-- `metrics.RoundStats` (latencies idealised as rationals). -/
structure RoundStats where
  accepted : ℕ
  total : ℕ
  tokens_produced : ℕ
  draft_latency_ms : ℚ
  verify_latency_ms : ℚ
  round_time_ms : ℚ
  k : ℕ
deriving DecidableEq

/-- `metrics.MetricsTracker` (the bounded deque is a list kept at length
at most `window_size`). -/
structure MetricsTracker where
  window_size : ℕ
  window : List RoundStats
  total_tokens : ℕ
  total_accepted : ℕ
  total_drafted : ℕ
  total_rounds : ℕ
  generation_start_ms : Option ℚ

/-- `MetricsTracker.__init__`. -/
def MetricsTracker.init (window_size : ℕ) : MetricsTracker :=
  ⟨window_size, [], 0, 0, 0, 0, none⟩

/-- `MetricsTracker.record_round`: append to the deque (dropping from the
left past `window_size`) and bump the unbounded totals. -/
def MetricsTracker.record_round (t : MetricsTracker) (stats : RoundStats) :
    MetricsTracker :=
  let w := t.window ++ [stats]
  { t with
    window := if t.window_size < w.length then w.drop (w.length - t.window_size) else w
    total_tokens := t.total_tokens + stats.tokens_produced
    total_accepted := t.total_accepted + stats.accepted
    total_drafted := t.total_drafted + stats.total
    total_rounds := t.total_rounds + 1 }

/-- `MetricsTracker.set_start_time`. -/
def MetricsTracker.set_start_time (t : MetricsTracker) (start_ms : ℚ) :
    MetricsTracker :=
  { t with generation_start_ms := some start_ms }

/-- `MetricsTracker.acceptance_rate` (windowed). -/
def MetricsTracker.acceptance_rate (t : MetricsTracker) : ℚ :=
  let total_accepted : ℚ := (t.window.map fun r => (r.accepted : ℚ)).sum
  let total_drafted : ℚ := (t.window.map fun r => (r.total : ℚ)).sum
  if 0 < total_drafted then total_accepted / total_drafted else 0

/-- `MetricsTracker.overall_acceptance_rate`. -/
def MetricsTracker.overall_acceptance_rate (t : MetricsTracker) : ℚ :=
  if 0 < t.total_drafted then (t.total_accepted : ℚ) / (t.total_drafted : ℚ) else 0

/-- `MetricsTracker.effective_tps`. -/
def MetricsTracker.effective_tps (t : MetricsTracker) : ℚ :=
  if t.window = [] then 0
  else
    let total_time_s : ℚ := (t.window.map fun r => r.round_time_ms).sum / 1000
    let total_tokens : ℚ := (t.window.map fun r => (r.tokens_produced : ℚ)).sum
    if 0 < total_time_s then total_tokens / total_time_s else 0

/-- `MetricsTracker.baseline_tps`: each verify call checks `k+1` positions,
so the hypothetical autoregressive cost per token is
`verify_latency_ms / (k+1)`; one token per round in AR mode. -/
def MetricsTracker.baseline_tps (t : MetricsTracker) : ℚ :=
  if t.window = [] then 0
  else
    let total_ar_time_ms : ℚ :=
      (t.window.map fun r => r.verify_latency_ms / ((r.k : ℚ) + 1)).sum
    let total_ar_tokens : ℚ := (t.window.length : ℚ)
    if 0 < total_ar_time_ms then total_ar_tokens / total_ar_time_ms * 1000 else 0

/-- `MetricsTracker.speedup`. -/
def MetricsTracker.speedup (t : MetricsTracker) : ℚ :=
  if 0 < t.baseline_tps then t.effective_tps / t.baseline_tps else 1

/-- `MetricsTracker.avg_draft_latency`. -/
def MetricsTracker.avg_draft_latency (t : MetricsTracker) : ℚ :=
  if t.window = [] then 0
  else (t.window.map fun r => r.draft_latency_ms).sum / (t.window.length : ℚ)

/-- `MetricsTracker.avg_verify_latency`. -/
def MetricsTracker.avg_verify_latency (t : MetricsTracker) : ℚ :=
  if t.window = [] then 0
  else (t.window.map fun r => r.verify_latency_ms).sum / (t.window.length : ℚ)

/-- `draft_model.DraftToken`. -/
structure DraftToken where
  token_id : ℤ
  token_str : String
  logprob : ℝ
  entropy : ℝ
  top_tokens : List (String × ℝ)
  elapsed_ms : ℚ

/-- `target_model.TargetTokenInfo`. -/
structure TargetTokenInfo where
  token_str : String
  token_logprob : ℝ
  top_logprobs : List (String × ℝ)
  entropy : ℝ

/-- `target_model.VerificationResult`. -/
structure VerificationResult where
  positions : List TargetTokenInfo
  elapsed_ms : ℚ

/-- `schemas.DraftTokenEvent`. -/
structure DraftTokenEvent where
  round : ℕ
  position : ℕ
  token : String
  token_id : ℤ
  logprob : ℝ
  entropy : ℝ
  top_tokens : List TopToken
  draft_time_ms : ℚ

/-- `schemas.VerifyResultEvent`. -/
structure VerifyResultEvent where
  round : ℕ
  position : ℕ
  token : String
  token_id : ℤ
  status : TokenStatus
  draft_logprob : ℝ
  target_logprob : Option ℝ
  acceptance_prob : Option ℝ
  target_entropy : Option ℝ
  target_top_tokens : List TopToken
  verify_time_ms : ℚ

/-- `schemas.MetricsEvent`. -/
structure MetricsEvent where
  round : ℕ
  acceptance_rate : ℚ
  round_accepted : ℕ
  round_total : ℕ
  effective_tps : ℚ
  baseline_tps : ℚ
  speedup : ℚ
  draft_latency_ms : ℚ
  verify_latency_ms : ℚ
  total_tokens_generated : ℕ

/-- `schemas.GenerationDoneEvent`. -/
structure GenerationDoneEvent where
  total_tokens : ℕ
  total_rounds : ℕ
  final_acceptance_rate : ℚ
  average_speedup : ℚ
  generated_text : String

/-- `schemas.ErrorEvent`. -/
structure ErrorEvent where
  message : String
  round : Option ℕ

/-- The closed union of events the speculator yields (`type` is the
constructor tag). -/
inductive Event where
  | draft (e : DraftTokenEvent)
  | verify (e : VerifyResultEvent)
  | metrics (e : MetricsEvent)
  | done (e : GenerationDoneEvent)
  | error (e : ErrorEvent)

/-- An event that terminates the stream (`done` or `error`). -/
def Event.isTerminal : Event → Bool
  | .done _ => true
  | .error _ => true
  | _ => false

/-- Recognise an `error` event. -/
def Event.isError : Event → Bool
  | .error _ => true
  | _ => false

/-- `speculator.GenerationState`. -/
structure GenerationState where
  context_ids : List ℤ
  generated_text_so_far : String
  generated_token_ids : List ℤ
  current_round : ℕ
  total_tokens_produced : ℕ

/-- `Speculator._emit_draft_events`: one `DraftTokenEvent` per drafted
position in order (the 50 ms pacing sleep carries no data). -/
def _emit_draft_events (draft_tokens : List DraftToken) (current_round : ℕ) :
    List Event :=
  draft_tokens.enum.map fun p =>
    .draft
      ⟨current_round, p.1, p.2.token_str, p.2.token_id, p.2.logprob, p.2.entropy,
        p.2.top_tokens.map (fun q => ⟨q.1, q.2⟩), p.2.elapsed_ms⟩

/-- The `VerifyResultEvent` yielded for one comparison in
`_emit_verify_events` (with `token_id = comp.final_token_id or 0` and the
top-5 slice of the target's top logprobs). -/
def mkVerifyEvent (verification : VerificationResult) (current_round : ℕ)
    (c : ComparisonResult) : Event :=
  let target_pos := verification.positions.get? c.position
  .verify
    ⟨current_round, c.position, c.final_token, c.final_token_id.getD 0, c.status,
      c.draft_logprob, c.target_logprob, c.acceptance_prob,
      target_pos.map (fun t => t.entropy),
      (match target_pos with
       | some t => (t.top_logprobs.take 5).map fun q => ⟨q.1, q.2⟩
       | none => []),
      verification.elapsed_ms⟩

/-- The comparison loop of `Speculator._emit_verify_events`: walks the
comparisons, skips positions already in `added_positions`, yields one event
per processed comparison, and collects `tokens_this_round` /
`token_ids_this_round` for accepted and resampled outcomes (an accepted
comparison contributes its ID only when the ID is truthy, i.e. neither
`None` nor `0`). -/
def emitAux (tokenize : String → List ℤ) (verification : VerificationResult)
    (current_round : ℕ) :
    List ComparisonResult → List ℕ → List Event × List String × List ℤ
  | [], _ => ([], [], [])
  | c :: rest, added =>
    if c.position ∈ added then
      emitAux tokenize verification current_round rest added
    else
      let ev := mkVerifyEvent verification current_round c
      if c.status = .accepted ∨ c.status = .resampled then
        let idsHere : List ℤ :=
          if c.status = .accepted then
            match c.final_token_id with
            | some n => if n = 0 then [] else [n]
            | none => []
          else tokenize c.final_token
        let r := emitAux tokenize verification current_round rest (c.position :: added)
        (ev :: r.1, c.final_token :: r.2.1, idsHere ++ r.2.2)
      else
        let r := emitAux tokenize verification current_round rest added
        (ev :: r.1, r.2.1, r.2.2)

/-- `Speculator._emit_verify_events`: the comparison loop followed by the
bonus handling (`if round_result.bonus_token:` — the empty string is
falsy).  Returns the yielded events together with `tokens_this_round` and
`token_ids_this_round`. -/
def _emit_verify_events (tokenize : String → List ℤ) (round_result : RoundResult)
    (draft_tokens_length : ℕ) (verification : VerificationResult)
    (current_round : ℕ) : List Event × List String × List ℤ :=
  let r := emitAux tokenize verification current_round round_result.comparisons []
  match round_result.bonus_token with
  | some s =>
    if s = "" then r
    else
      (r.1 ++
        [.verify
          ⟨current_round, draft_tokens_length, s, 0, .bonus, 0, none, some 1,
            none, [], verification.elapsed_ms⟩],
        r.2.1 ++ [s], r.2.2 ++ tokenize s)
  | none => r

/-- `Speculator._update_context`: extend the committed IDs, count the
committed tokens, and rebuild the text by a fresh decode of the full ID
sequence. -/
def _update_context (decode : List ℤ → String) (state : GenerationState)
    (tokens_this_round : List String) (token_ids_this_round : List ℤ) :
    GenerationState :=
  let ids := state.generated_token_ids ++ token_ids_this_round
  { state with
    generated_token_ids := ids
    total_tokens_produced := state.total_tokens_produced + tokens_this_round.length
    generated_text_so_far := decode ids }

/-- `Speculator._make_metrics_event`. -/
def _make_metrics_event (metrics : MetricsTracker) (round_result : RoundResult)
    (draft_tokens : List DraftToken) (current_round : ℕ) : Event :=
  .metrics
    ⟨current_round, metrics.acceptance_rate, round_result.accepted_count,
      draft_tokens.length, metrics.effective_tps, metrics.baseline_tps,
      metrics.speedup, metrics.avg_draft_latency, metrics.avg_verify_latency,
      metrics.total_tokens⟩

/-- `stop in text` on the underlying character lists. -/
def containsSub (pat : List Char) : List Char → Bool
  | [] => pat.isEmpty
  | c :: rest => pat.isPrefixOf (c :: rest) || containsSub pat rest

/-- `Speculator._is_eos`: some configured EOS marker occurs in the text. -/
def _is_eos (eos_tokens : List String) (text : String) : Bool :=
  eos_tokens.any fun stop => containsSub stop.data text.data

/-- The terminal `GenerationDoneEvent` built at loop exit. -/
def _done_event (metrics : MetricsTracker) (state : GenerationState) : Event :=
  .done
    ⟨metrics.total_tokens, metrics.total_rounds, metrics.overall_acceptance_rate,
      metrics.speedup, state.generated_text_so_far⟩

/-- The tokenise/decode capabilities of the draft collaborator used by the
round loop (`DraftModelProtocol`). -/
structure DraftCollaborator where
  apply_chat_template : String → List ℤ
  tokenize : String → List ℤ
  decode : List ℤ → String

/-- Environment of one round: the collaborator responses the loop consumes.
`draftResult` is the draft phase (tokens and elapsed ms) or a raised
exception's message; `verifyResult` likewise for the target call; `rands`
is the uniform stream consumed by this round's rejection sampling; and
`round_time_ms` the measured wall-clock round time. -/
structure RoundEnv where
  rands : ℕ → ℝ
  draftResult : Except String (List DraftToken × ℚ)
  verifyResult : Except String VerificationResult
  round_time_ms : ℚ

/-- `Speculator._run_rejection_sampling`: build the typed inputs from the
draft tokens and the verification positions and run the sampler. -/
noncomputable def _run_rejection_sampling (rands : ℕ → ℝ)
    (draft_tokens : List DraftToken) (verification : VerificationResult) :
    RoundResult :=
  run_rejection_sampling rands
    (draft_tokens.map fun dt => ⟨dt.token_str, dt.token_id, dt.logprob⟩)
    (verification.positions.map fun pos => ⟨pos.token_str, pos.top_logprobs⟩)

/-- One successful round after the draft events: rejection sampling,
verify-event emission, context update, and metrics recording (steps 5–9 of
the per-round procedure).  Returns the verify events followed by the
metrics event, the updated state, and the updated tracker. -/
noncomputable def runRoundBody (collab : DraftCollaborator) (rands : ℕ → ℝ)
    (round_time_ms : ℚ) (draft_tokens : List DraftToken) (draft_elapsed : ℚ)
    (verification : VerificationResult) (state1 : GenerationState)
    (metrics : MetricsTracker) : List Event × GenerationState × MetricsTracker :=
  let round_result := _run_rejection_sampling rands draft_tokens verification
  let er := _emit_verify_events collab.tokenize round_result draft_tokens.length
    verification state1.current_round
  let state2 := _update_context collab.decode state1 er.2.1 er.2.2
  let round_stats : RoundStats :=
    ⟨round_result.accepted_count, draft_tokens.length, er.2.1.length,
      draft_elapsed, verification.elapsed_ms, round_time_ms, draft_tokens.length⟩
  let metrics1 := metrics.record_round round_stats
  (er.1 ++ [_make_metrics_event metrics1 round_result draft_tokens state1.current_round],
    state2, metrics1)

/-- The `while` loop of `Speculator.generate`.  Returns the yielded events,
the final generation state, and whether the run completed (reached a
terminal event) — `false` means the provided round environments ran out
while the loop still wanted another round. -/
noncomputable def genLoop (collab : DraftCollaborator) (eos_tokens : List String)
    (max_tokens : ℕ) :
    GenerationState → MetricsTracker → List RoundEnv →
    List Event × GenerationState × Bool
  | state, metrics, [] =>
    if state.total_tokens_produced < max_tokens then ([], state, false)
    else ([_done_event metrics state], state, true)
  | state, metrics, env :: rest =>
    if state.total_tokens_produced < max_tokens then
      let state1 := { state with current_round := state.current_round + 1 }
      match env.draftResult with
      | .error msg => ([.error ⟨msg, some state1.current_round⟩], state1, true)
      | .ok (draft_tokens, draft_elapsed) =>
        let draftEvents := _emit_draft_events draft_tokens state1.current_round
        match env.verifyResult with
        | .error msg =>
          (draftEvents ++ [.error ⟨msg, some state1.current_round⟩], state1, true)
        | .ok verification =>
          let body := runRoundBody collab env.rands env.round_time_ms draft_tokens
            draft_elapsed verification state1 metrics
          if _is_eos eos_tokens body.2.1.generated_text_so_far then
            (draftEvents ++ body.1 ++ [_done_event body.2.2 body.2.1], body.2.1, true)
          else
            let r := genLoop collab eos_tokens max_tokens body.2.1 body.2.2 rest
            (draftEvents ++ body.1 ++ r.1, r.2)
    else ([_done_event metrics state], state, true)

/-- `Speculator.generate`: initial state from the chat template, fresh
metrics tracker, then the round loop over the provided environments. -/
noncomputable def generate (collab : DraftCollaborator) (eos_tokens : List String)
    (prompt : String) (max_tokens : ℕ) (start_ms : ℚ) (envs : List RoundEnv) :
    List Event × GenerationState × Bool :=
  let metrics := (MetricsTracker.init 50).set_start_time start_ms
  let context_ids := collab.apply_chat_template prompt
  genLoop collab eos_tokens max_tokens ⟨context_ids, "", [], 0, 0⟩ metrics envs

/-! ### Structural lemmas about the rejection sampler -/

theorem samplePosition_accept_fields (u : ℝ) (i : ℕ) (draft : DraftInput)
    (target : TargetInput) (c : ComparisonResult) (b : Bool)
    (h : samplePosition u i draft target = .accept c b) :
    c.status = .accepted ∧ c.position = i ∧ c.draft_token = draft.token_str ∧
      c.final_token = draft.token_str ∧ c.final_token_id = some draft.token_id := by
  unfold samplePosition at h
  split at h
  · injection h with h1 h2
    subst h1
    exact ⟨rfl, rfl, rfl, rfl, rfl⟩
  · split at h
    · dsimp only at h
      split at h
      · injection h with h1 h2
        subst h1
        exact ⟨rfl, rfl, rfl, rfl, rfl⟩
      · exact StepResult.noConfusion h
    · exact StepResult.noConfusion h

theorem samplePosition_reject_fields (u : ℝ) (i : ℕ) (draft : DraftInput)
    (target : TargetInput) (c1 c2 : ComparisonResult) (b : Bool)
    (h : samplePosition u i draft target = .reject c1 c2 b) :
    c1.status = .rejected ∧ c1.position = i ∧ c1.final_token = target.token_str ∧
      c2.status = .resampled ∧ c2.position = i ∧
      c2.final_token = target.token_str ∧ c2.final_token_id = none ∧
      c2.acceptance_prob = some 0 ∧ c1.draft_token = draft.token_str ∧
      c2.draft_token = draft.token_str := by
  unfold samplePosition at h
  split at h
  · exact StepResult.noConfusion h
  · split at h
    · dsimp only at h
      split at h
      · exact StepResult.noConfusion h
      · injection h with h1 h2 h3
        subst h1; subst h2
        exact ⟨rfl, rfl, rfl, rfl, rfl, rfl, rfl, rfl, rfl, rfl⟩
    · injection h with h1 h2 h3
      subst h1; subst h2
      exact ⟨rfl, rfl, rfl, rfl, rfl, rfl, rfl, rfl, rfl, rfl⟩

/-- Shape of a sampler round's comparison list starting at position `i`:
a run of accepted comparisons at consecutive positions, optionally ended by
one rejected/resampled pair at the next position. -/
inductive GoodFrom : ℕ → List ComparisonResult → Prop
  | nil (i : ℕ) : GoodFrom i []
  | accept (i : ℕ) (c : ComparisonResult) (cs : List ComparisonResult)
      (hs : c.status = .accepted) (hp : c.position = i)
      (h : GoodFrom (i + 1) cs) : GoodFrom i (c :: cs)
  | pair (i : ℕ) (c1 c2 : ComparisonResult)
      (hs1 : c1.status = .rejected) (hs2 : c2.status = .resampled)
      (hp1 : c1.position = i) (hp2 : c2.position = i) :
      GoodFrom i [c1, c2]

theorem runAux_good (rands : ℕ → ℝ) :
    ∀ (drafts : List DraftInput) (targets : List TargetInput) (i d : ℕ),
      GoodFrom i (runAux rands drafts targets i d).1 := by
  intro drafts
  induction drafts with
  | nil => intro targets i d; exact GoodFrom.nil i
  | cons draft drafts ih =>
    intro targets i d
    match targets with
    | [] => exact GoodFrom.nil i
    | target :: targets =>
      rcases hsp : samplePosition (rands d) i draft target with ⟨c, b⟩ | ⟨c1, c2, b⟩
      · have hf := samplePosition_accept_fields _ _ _ _ _ _ hsp
        simp only [runAux, hsp]
        exact GoodFrom.accept i c _ hf.1 hf.2.1 (ih targets (i + 1) _)
      · have hf := samplePosition_reject_fields _ _ _ _ _ _ _ hsp
        simp only [runAux, hsp]
        exact GoodFrom.pair i c1 c2 hf.1 hf.2.2.2.1 hf.2.1 hf.2.2.2.2.1

/-- Master shape lemma for the sampler loop: either every processed
position was accepted (one comparison per position, consecutive
positions), or a run of accepted comparisons is ended by one
rejected/resampled pair carrying the target's token. -/
theorem runAux_shape (rands : ℕ → ℝ) :
    ∀ (drafts : List DraftInput) (targets : List TargetInput) (i d : ℕ)
      (comps : List ComparisonResult) (acc : ℕ),
      runAux rands drafts targets i d = (comps, acc) →
      (comps.length = min drafts.length targets.length ∧ acc = comps.length ∧
        ∀ j c, comps.get? j = some c → c.status = .accepted ∧ c.position = i + j) ∨
      (∃ front c1 c2, comps = front ++ [c1, c2] ∧ acc = front.length ∧
        front.length < drafts.length ∧ front.length < targets.length ∧
        (∀ j c, front.get? j = some c → c.status = .accepted ∧ c.position = i + j) ∧
        c1.status = .rejected ∧ c2.status = .resampled ∧
        c1.position = i + front.length ∧ c2.position = i + front.length ∧
        (∃ t, targets.get? front.length = some t ∧
          c1.final_token = t.token_str ∧ c2.final_token = t.token_str) ∧
        c2.final_token_id = none ∧ c2.acceptance_prob = some 0) := by
  intro drafts
  induction drafts with
  | nil =>
    intro targets i d comps acc h
    simp only [runAux] at h
    injection h with h1 h2
    subst h1; subst h2
    left
    refine ⟨by simp, rfl, ?_⟩
    intro j c hj
    simp at hj
  | cons draft drafts ih =>
    intro targets i d comps acc h
    match targets with
    | [] =>
      simp only [runAux] at h
      injection h with h1 h2
      subst h1; subst h2
      left
      refine ⟨by simp, rfl, ?_⟩
      intro j c hj
      simp at hj
    | target :: targets =>
      rcases hsp : samplePosition (rands d) i draft target with ⟨c, b⟩ | ⟨c1, c2, b⟩
      · simp only [runAux, hsp] at h
        injection h with h1 h2
        subst h1; subst h2
        have hf := samplePosition_accept_fields _ _ _ _ _ _ hsp
        rcases ih targets (i + 1) (d + if b then 1 else 0)
            (runAux rands drafts targets (i + 1) (d + if b then 1 else 0)).1
            (runAux rands drafts targets (i + 1) (d + if b then 1 else 0)).2 rfl with
          ⟨hlen, hacc, hget⟩ | ⟨front, c1, c2, heq, hacc, hfd, hft, hget, hs1, hs2,
            hp1, hp2, ⟨t, htg, htf1, htf2⟩, hid2, hap2⟩
        · left
          refine ⟨by simp only [List.length_cons, hlen]; omega, by simp [hacc], ?_⟩
          intro j c' hj
          match j with
          | 0 =>
            simp only [List.get?_cons_zero, Option.some.injEq] at hj
            subst hj
            exact ⟨hf.1, by omega⟩
          | j + 1 =>
            simp only [List.get?_cons_succ] at hj
            have := hget j c' hj
            exact ⟨this.1, by omega⟩
        · right
          refine ⟨c :: front, c1, c2, by simp [heq], by simp [hacc],
            by simp only [List.length_cons]; omega,
            by simp only [List.length_cons]; omega, ?_, hs1, hs2,
            by simp only [List.length_cons]; omega,
            by simp only [List.length_cons]; omega,
            ⟨t, by simpa using htg, htf1, htf2⟩, hid2, hap2⟩
          intro j c' hj
          match j with
          | 0 =>
            simp only [List.get?_cons_zero, Option.some.injEq] at hj
            subst hj
            exact ⟨hf.1, by omega⟩
          | j + 1 =>
            simp only [List.get?_cons_succ] at hj
            have := hget j c' hj
            exact ⟨this.1, by omega⟩
      · simp only [runAux, hsp] at h
        injection h with h1 h2
        subst h1; subst h2
        have hf := samplePosition_reject_fields _ _ _ _ _ _ _ hsp
        right
        refine ⟨[], c1, c2, by simp, rfl, by simp, by simp, ?_, hf.1, hf.2.2.2.1,
          by simpa using hf.2.1, by simpa using hf.2.2.2.2.1,
          ⟨target, rfl, hf.2.2.1, hf.2.2.2.2.2.1⟩, hf.2.2.2.2.2.2.1,
          hf.2.2.2.2.2.2.2.1⟩
        intro j c' hj
        simp at hj

/-! ### Characterisation of the event emission and commit collection -/

/-- The token a comparison commits, as the spec describes the walk: one
final token per accepted or resampled comparison. -/
def commitTok (c : ComparisonResult) : Option String :=
  if c.status = .accepted ∨ c.status = .resampled then some c.final_token else none

/-- The token IDs a comparison commits: an accepted comparison contributes
its ID only when truthy (neither `None` nor `0`); a resampled comparison
contributes the draft tokeniser's IDs for its final token. -/
def commitIds (tokenize : String → List ℤ) (c : ComparisonResult) : List ℤ :=
  if c.status = .accepted then
    match c.final_token_id with
    | some n => if n = 0 then [] else [n]
    | none => []
  else if c.status = .resampled then tokenize c.final_token
  else []

/-- Events appended by the bonus branch (none when the bonus is absent or
the empty — falsy — string). -/
def bonusEvents (draft_tokens_length current_round : ℕ)
    (verification : VerificationResult) : Option String → List Event
  | some s =>
    if s = "" then []
    else
      [.verify
        ⟨current_round, draft_tokens_length, s, 0, .bonus, 0, none, some 1,
          none, [], verification.elapsed_ms⟩]
  | none => []

/-- Tokens appended by the bonus branch. -/
def bonusToks : Option String → List String
  | some s => if s = "" then [] else [s]
  | none => []

/-- Token IDs appended by the bonus branch. -/
def bonusIds (tokenize : String → List ℤ) : Option String → List ℤ
  | some s => if s = "" then [] else tokenize s
  | none => []

/-- On a well-shaped comparison list the `added_positions` skip never
fires: the walk emits one event per comparison and collects exactly the
per-comparison commits. -/
theorem emitAux_eq (tokenize : String → List ℤ)
    (verification : VerificationResult) (current_round : ℕ) :
    ∀ (i : ℕ) (comps : List ComparisonResult) (added : List ℕ),
      GoodFrom i comps → (∀ p ∈ added, p < i) →
      emitAux tokenize verification current_round comps added =
        (comps.map (mkVerifyEvent verification current_round),
         comps.filterMap commitTok,
         comps.flatMap (commitIds tokenize)) := by
  intro i comps added hg
  induction hg generalizing added with
  | nil i => intro _; rfl
  | accept i c cs hs hp hgood ih =>
    intro hadded
    have hmem : c.position ∉ added := fun hmem => by
      have := hadded _ hmem
      omega
    rw [emitAux, if_neg hmem, if_pos (Or.inl hs)]
    rw [ih (c.position :: added) ?_]
    · simp only [List.map_cons, List.filterMap_cons, List.flatMap_cons]
      rw [if_pos hs]
      have htok : commitTok c = some c.final_token := by
        simp [commitTok, hs]
      have hids : commitIds tokenize c =
          (match c.final_token_id with
           | some n => if n = 0 then [] else [n]
           | none => []) := by
        simp [commitIds, hs]
      rw [htok, hids]
    · intro p hp'
      rcases List.mem_cons.1 hp' with rfl | hp''
      · omega
      · have := hadded _ hp''
        omega
  | pair i c1 c2 hs1 hs2 hp1 hp2 =>
    intro hadded
    have hmem1 : c1.position ∉ added := fun hmem => by
      have := hadded _ hmem
      omega
    have hmem2 : c2.position ∉ added := fun hmem => by
      have := hadded _ hmem
      omega
    have hns1 : ¬(c1.status = .accepted ∨ c1.status = .resampled) := by
      simp [hs1]
    rw [emitAux, if_neg hmem1, if_neg hns1]
    rw [emitAux, if_neg hmem2, if_pos (Or.inr hs2)]
    simp only [emitAux]
    rw [if_neg (by simp [hs2])]
    simp [commitTok, commitIds, hs1, hs2]

/-- Full characterisation of `_emit_verify_events` on a well-shaped round
result: one event per comparison plus the bonus event, with the commits
collected per comparison plus the bonus commits. -/
theorem emit_events_eq (tokenize : String → List ℤ) (rr : RoundResult)
    (draft_tokens_length : ℕ) (verification : VerificationResult)
    (current_round : ℕ) (hg : GoodFrom 0 rr.comparisons) :
    _emit_verify_events tokenize rr draft_tokens_length verification current_round =
      (rr.comparisons.map (mkVerifyEvent verification current_round) ++
         bonusEvents draft_tokens_length current_round verification rr.bonus_token,
       rr.comparisons.filterMap commitTok ++ bonusToks rr.bonus_token,
       rr.comparisons.flatMap (commitIds tokenize) ++
         bonusIds tokenize rr.bonus_token) := by
  unfold _emit_verify_events
  rw [emitAux_eq tokenize verification current_round 0 rr.comparisons [] hg
    (by intro p hp; simp at hp)]
  match hb : rr.bonus_token with
  | none => simp [bonusEvents, bonusToks, bonusIds]
  | some s =>
    by_cases hs : s = ""
    · subst hs
      simp [bonusEvents, bonusToks, bonusIds]
    · simp [bonusEvents, bonusToks, bonusIds, hs]

theorem emitAux_events_are_verify (tokenize : String → List ℤ)
    (verification : VerificationResult) (current_round : ℕ) :
    ∀ (comps : List ComparisonResult) (added : List ℕ) (e : Event),
      e ∈ (emitAux tokenize verification current_round comps added).1 →
      ∃ v, e = .verify v := by
  intro comps
  induction comps with
  | nil => intro added e he; simp [emitAux] at he
  | cons c rest ih =>
    intro added e he
    rw [emitAux] at he
    split at he
    · exact ih added e he
    · split at he
      · rcases List.mem_cons.1 he with rfl | he'
        · exact ⟨_, rfl⟩
        · exact ih _ e he'
      · rcases List.mem_cons.1 he with rfl | he'
        · exact ⟨_, rfl⟩
        · exact ih _ e he'

theorem emit_events_are_verify (tokenize : String → List ℤ) (rr : RoundResult)
    (draft_tokens_length : ℕ) (verification : VerificationResult)
    (current_round : ℕ) (e : Event)
    (he : e ∈ (_emit_verify_events tokenize rr draft_tokens_length verification
      current_round).1) : ∃ v, e = .verify v := by
  unfold _emit_verify_events at he
  match hb : rr.bonus_token with
  | none =>
    rw [hb] at he
    exact emitAux_events_are_verify _ _ _ _ _ _ he
  | some s =>
    rw [hb] at he
    dsimp only at he
    by_cases hs : s = ""
    · rw [if_pos hs] at he
      exact emitAux_events_are_verify _ _ _ _ _ _ he
    · rw [if_neg hs] at he
      rcases List.mem_append.1 he with he' | he'
      · exact emitAux_events_are_verify _ _ _ _ _ _ he'
      · simp at he'
        exact ⟨_, he'⟩

theorem draft_events_are_draft (draft_tokens : List DraftToken)
    (current_round : ℕ) (e : Event)
    (he : e ∈ _emit_draft_events draft_tokens current_round) :
    ∃ v, e = .draft v := by
  unfold _emit_draft_events at he
  rcases List.mem_map.1 he with ⟨p, _, rfl⟩
  exact ⟨_, rfl⟩

/-- No event of a successful round body (verify events, metrics event) is
terminal. -/
theorem runRoundBody_not_terminal (collab : DraftCollaborator) (rands : ℕ → ℝ)
    (round_time_ms : ℚ) (draft_tokens : List DraftToken) (draft_elapsed : ℚ)
    (verification : VerificationResult) (state1 : GenerationState)
    (metrics : MetricsTracker) (e : Event)
    (he : e ∈ (runRoundBody collab rands round_time_ms draft_tokens draft_elapsed
      verification state1 metrics).1) :
    e.isTerminal = false := by
  unfold runRoundBody at he
  rcases List.mem_append.1 he with he' | he'
  · rcases emit_events_are_verify _ _ _ _ _ _ he' with ⟨v, rfl⟩
    rfl
  · simp only [List.mem_singleton] at he'
    subst he'
    rfl

/-- The sampler loop consumes at most one uniform draw per drafted
position, so its result depends only on the draws at indices
`[d, d + drafts.length)`. -/
theorem runAux_ext (r1 r2 : ℕ → ℝ) :
    ∀ (drafts : List DraftInput) (targets : List TargetInput) (i d : ℕ),
      (∀ n, d ≤ n → n < d + drafts.length → r1 n = r2 n) →
      runAux r1 drafts targets i d = runAux r2 drafts targets i d := by
  intro drafts
  induction drafts with
  | nil => intro targets i d _; rfl
  | cons draft drafts ih =>
    intro targets i d hagree
    match targets with
    | [] => rfl
    | target :: targets =>
      have h0 : r1 d = r2 d := hagree d le_rfl (by simp)
      have hrec : ∀ b : Bool,
          runAux r1 drafts targets (i + 1) (d + if b then 1 else 0) =
          runAux r2 drafts targets (i + 1) (d + if b then 1 else 0) := by
        intro b
        apply ih
        intro n hn1 hn2
        apply hagree n (le_trans (Nat.le_add_right d _) hn1)
        have : (if b then 1 else 0) ≤ 1 := by cases b <;> simp
        simp only [List.length_cons]
        omega
      rw [runAux, runAux, h0]
      rcases hsp : samplePosition (r2 d) i draft target with ⟨c, b⟩ | ⟨c1, c2, b⟩
      · simp only [hrec b]
      · rfl

theorem isTerminal_of_isError (e : Event) (h : e.isError = true) :
    e.isTerminal = true := by
  cases e <;> simp_all [Event.isError, Event.isTerminal]

theorem countP_terminal_eq_zero (l : List Event)
    (h : ∀ e ∈ l, e.isTerminal = false) : l.countP Event.isTerminal = 0 :=
  List.countP_eq_zero.2 (by intro e he; simp [h e he])


/-- Terminal-event discipline of the round loop: at most one terminal
event, exactly one on completed runs and it closes the stream, any error
event is the last event, and every error event is a collaborator failure's
message tagged with its round. -/
theorem genLoop_terminal_spec (collab : DraftCollaborator) (eos_tokens : List String)
    (max_tokens : ℕ) :
    ∀ (envs : List RoundEnv) (st : GenerationState) (m : MetricsTracker)
      (evs : List Event) (stf : GenerationState) (c : Bool),
      genLoop collab eos_tokens max_tokens st m envs = (evs, stf, c) →
      (evs.countP Event.isTerminal ≤ 1) ∧
      (c = true → evs.countP Event.isTerminal = 1 ∧
        ∃ e, evs.getLast? = some e ∧ e.isTerminal = true) ∧
      (c = false → evs.countP Event.isTerminal = 0) ∧
      (∀ e ∈ evs, e.isError = true → evs.getLast? = some e) ∧
      (∀ ev, Event.error ev ∈ evs →
        ∃ j env msg, envs.get? j = some env ∧
          (env.draftResult = .error msg ∨ env.verifyResult = .error msg) ∧
          ev = ⟨msg, some (st.current_round + j + 1)⟩) := by
  intro envs
  induction envs with
  | nil =>
    intro st m evs stf c h
    simp only [genLoop] at h
    split at h
    · injection h with h1 h2
      injection h2 with h2 h3
      subst h1; subst h3
      exact ⟨by simp, by simp, fun _ => by simp, by simp, by simp⟩
    · injection h with h1 h2
      injection h2 with h2 h3
      subst h1; subst h3
      refine ⟨by simp [List.countP_cons, Event.isTerminal, _done_event], ?_, ?_, ?_, ?_⟩
      · intro _
        exact ⟨by simp [List.countP_cons, Event.isTerminal, _done_event],
          ⟨_done_event m st, by simp, rfl⟩⟩
      · intro hc; exact absurd hc (by simp)
      · intro e he herr
        simp only [List.mem_singleton] at he
        subst he
        simp
      · intro ev hev
        simp only [List.mem_singleton] at hev
        exact absurd hev (by simp [_done_event])
  | cons env rest ih =>
    intro st m evs stf c h
    simp only [genLoop] at h
    split at h
    case isFalse =>
      injection h with h1 h2
      injection h2 with h2 h3
      subst h1; subst h3
      refine ⟨by simp [List.countP_cons, Event.isTerminal, _done_event], ?_, ?_, ?_, ?_⟩
      · intro _
        exact ⟨by simp [List.countP_cons, Event.isTerminal, _done_event],
          ⟨_done_event m st, by simp, rfl⟩⟩
      · intro hc; exact absurd hc (by simp)
      · intro e he herr
        simp only [List.mem_singleton] at he
        subst he
        simp
      · intro ev hev
        simp only [List.mem_singleton] at hev
        exact absurd hev (by simp [_done_event])
    case isTrue hlt =>
      rcases hdr : env.draftResult with msg | ⟨draft_tokens, draft_elapsed⟩
      · rw [hdr] at h
        simp only [] at h
        injection h with h1 h2
        injection h2 with h2 h3
        subst h1; subst h3
        refine ⟨by simp [List.countP_cons, Event.isTerminal], ?_, ?_, ?_, ?_⟩
        · intro _
          exact ⟨by simp [List.countP_cons, Event.isTerminal],
            ⟨Event.error ⟨msg, some (st.current_round + 1)⟩, by simp, rfl⟩⟩
        · intro hc; exact absurd hc (by simp)
        · intro e he herr
          simp only [List.mem_singleton] at he
          subst he
          simp
        · intro ev hev
          simp only [List.mem_singleton, Event.error.injEq] at hev
          subst hev
          exact ⟨0, env, msg, rfl, Or.inl hdr, rfl⟩
      · rw [hdr] at h
        simp only [] at h
        rcases hvr : env.verifyResult with msg | verification
        · rw [hvr] at h
          simp only [] at h
          injection h with h1 h2
          injection h2 with h2 h3
          subst h1; subst h3
          have hdraft : ∀ e ∈ _emit_draft_events draft_tokens (st.current_round + 1),
              e.isTerminal = false := by
            intro e he
            rcases draft_events_are_draft _ _ _ he with ⟨v, rfl⟩
            rfl
          refine ⟨?_, ?_, ?_, ?_, ?_⟩
          · rw [List.countP_append, countP_terminal_eq_zero _ hdraft]
            simp [List.countP_cons, Event.isTerminal]
          · intro _
            refine ⟨?_, ⟨Event.error ⟨msg, some (st.current_round + 1)⟩,
              List.getLast?_concat _, rfl⟩⟩
            rw [List.countP_append, countP_terminal_eq_zero _ hdraft]
            simp [List.countP_cons, Event.isTerminal]
          · intro hc; exact absurd hc (by simp)
          · intro e he herr
            rcases List.mem_append.1 he with he' | he'
            · have := hdraft e he'
              have := isTerminal_of_isError e herr
              simp_all
            · simp only [List.mem_singleton] at he'
              subst he'
              exact List.getLast?_concat _
          · intro ev hev
            rcases List.mem_append.1 hev with he' | he'
            · have := hdraft _ he'
              simp [Event.isTerminal] at this
            · simp only [List.mem_singleton, Event.error.injEq] at he'
              subst he'
              exact ⟨0, env, msg, rfl, Or.inr hvr, rfl⟩
        · rw [hvr] at h
          simp only [] at h
          have hdraft : ∀ e ∈ _emit_draft_events draft_tokens (st.current_round + 1),
              e.isTerminal = false := by
            intro e he
            rcases draft_events_are_draft _ _ _ he with ⟨v, rfl⟩
            rfl
          have hbody : ∀ e ∈ (runRoundBody collab env.rands env.round_time_ms
              draft_tokens draft_elapsed verification
              { st with current_round := st.current_round + 1 } m).1,
              e.isTerminal = false := by
            intro e he
            exact runRoundBody_not_terminal _ _ _ _ _ _ _ _ _ he
          have hpre0 : (List.countP Event.isTerminal
              (_emit_draft_events draft_tokens (st.current_round + 1) ++
                (runRoundBody collab env.rands env.round_time_ms draft_tokens
                  draft_elapsed verification
                  { st with current_round := st.current_round + 1 } m).1)) = 0 := by
            rw [List.countP_append, countP_terminal_eq_zero _ hdraft,
              countP_terminal_eq_zero _ hbody]
          split at h
          case isTrue heos =>
            injection h with h1 h2
            injection h2 with h2 h3
            subst h1; subst h3
            refine ⟨?_, ?_, ?_, ?_, ?_⟩
            · rw [List.countP_append, hpre0]
              simp [List.countP_cons, Event.isTerminal, _done_event]
            · intro _
              constructor
              · rw [List.countP_append, hpre0]
                simp [List.countP_cons, Event.isTerminal, _done_event]
              · exact ⟨_done_event _ _, List.getLast?_concat _, rfl⟩
            · intro hc; exact absurd hc (by simp)
            · intro e he herr
              have hterm := isTerminal_of_isError e herr
              rcases List.mem_append.1 he with he' | he'
              · rcases List.mem_append.1 he' with he'' | he''
                · have := hdraft e he''
                  simp_all
                · have := hbody e he''
                  simp_all
              · simp only [List.mem_singleton] at he'
                subst he'
                exact List.getLast?_concat _
            · intro ev hev
              rcases List.mem_append.1 hev with he' | he'
              · rcases List.mem_append.1 he' with he'' | he''
                · have := hdraft _ he''
                  simp [Event.isTerminal] at this
                · have := hbody _ he''
                  simp [Event.isTerminal] at this
              · simp only [List.mem_singleton] at he'
                exact absurd he' (by simp [_done_event])
          case isFalse heos =>
            injection h with h1 h2
            subst h1
            have h2a : (genLoop collab eos_tokens max_tokens
                (runRoundBody collab env.rands env.round_time_ms draft_tokens
                  draft_elapsed verification
                  { st with current_round := st.current_round + 1 } m).2.1
                (runRoundBody collab env.rands env.round_time_ms draft_tokens
                  draft_elapsed verification
                  { st with current_round := st.current_round + 1 } m).2.2
                rest).2.2 = c := by rw [h2]
            rcases ih _ _ _ _ _ rfl with ⟨iha, ihb, ihc, ihd, ihe⟩
            refine ⟨?_, ?_, ?_, ?_, ?_⟩
            · rw [List.countP_append, hpre0]
              simpa using iha
            · intro hc
              subst h2a
              rcases ihb hc with ⟨hcount, e, hlast, hterm⟩
              refine ⟨?_, ⟨e, ?_, hterm⟩⟩
              · rw [List.countP_append, hpre0]
                simpa using hcount
              · exact Option.mem_def.1
                  (List.mem_getLast?_append_of_mem_getLast? (Option.mem_def.2 hlast))
            · intro hc
              subst h2a
              rw [List.countP_append, hpre0]
              simpa using ihc hc
            · intro e he herr
              have hterm := isTerminal_of_isError e herr
              rcases List.mem_append.1 he with he' | he'
              · rcases List.mem_append.1 he' with he'' | he''
                · have := hdraft e he''
                  simp_all
                · have := hbody e he''
                  simp_all
              · rw [List.getLast?_append_of_ne_nil _ (List.ne_nil_of_mem he')]
                exact ihd e he' herr
            · intro ev hev
              rcases List.mem_append.1 hev with he' | he'
              · rcases List.mem_append.1 he' with he'' | he''
                · have := hdraft _ he''
                  simp [Event.isTerminal] at this
                · have := hbody _ he''
                  simp [Event.isTerminal] at this
              · rcases ihe ev he' with ⟨j, env', msg, hj, hkind, hev'⟩
                refine ⟨j + 1, env', msg, by simpa using hj, hkind, ?_⟩
                rw [hev']
                have hcr : (runRoundBody collab env.rands env.round_time_ms
                    draft_tokens draft_elapsed verification
                    { st with current_round := st.current_round + 1 } m).2.1.current_round =
                    st.current_round + 1 := rfl
                rw [hcr]
                congr 2
                omega

/-- A round body's updated state always satisfies the context-integrity
identity: its text is a fresh decode of its committed IDs. -/
theorem runRoundBody_text_decode (collab : DraftCollaborator) (rands : ℕ → ℝ)
    (round_time_ms : ℚ) (draft_tokens : List DraftToken) (draft_elapsed : ℚ)
    (verification : VerificationResult) (state1 : GenerationState)
    (metrics : MetricsTracker) :
    (runRoundBody collab rands round_time_ms draft_tokens draft_elapsed
      verification state1 metrics).2.1.generated_text_so_far =
    collab.decode (runRoundBody collab rands round_time_ms draft_tokens
      draft_elapsed verification state1 metrics).2.1.generated_token_ids := rfl

/-- Context integrity through the round loop: if the incoming state's text
is the decode of its committed IDs, so is the final state's, and every
`done` event carries the decode of the final committed IDs. -/
theorem genLoop_text_decode (collab : DraftCollaborator) (eos_tokens : List String)
    (max_tokens : ℕ) :
    ∀ (envs : List RoundEnv) (st : GenerationState) (m : MetricsTracker)
      (evs : List Event) (stf : GenerationState) (c : Bool),
      genLoop collab eos_tokens max_tokens st m envs = (evs, stf, c) →
      st.generated_text_so_far = collab.decode st.generated_token_ids →
      stf.generated_text_so_far = collab.decode stf.generated_token_ids ∧
      ∀ d, Event.done d ∈ evs →
        d.generated_text = collab.decode stf.generated_token_ids := by
  intro envs
  induction envs with
  | nil =>
    intro st m evs stf c h hinv
    simp only [genLoop] at h
    split at h
    · injection h with h1 h2
      injection h2 with h2 h3
      subst h1; subst h2
      exact ⟨hinv, by simp⟩
    · injection h with h1 h2
      injection h2 with h2 h3
      subst h1; subst h2
      refine ⟨hinv, ?_⟩
      intro d hd
      simp only [List.mem_singleton, _done_event, Event.done.injEq] at hd
      subst hd
      exact hinv
  | cons env rest ih =>
    intro st m evs stf c h hinv
    simp only [genLoop] at h
    split at h
    case isFalse =>
      injection h with h1 h2
      injection h2 with h2 h3
      subst h1; subst h2
      refine ⟨hinv, ?_⟩
      intro d hd
      simp only [List.mem_singleton, _done_event, Event.done.injEq] at hd
      subst hd
      exact hinv
    case isTrue hlt =>
      rcases hdr : env.draftResult with msg | ⟨draft_tokens, draft_elapsed⟩
      · rw [hdr] at h
        simp only [] at h
        injection h with h1 h2
        injection h2 with h2 h3
        subst h1; subst h2
        refine ⟨hinv, ?_⟩
        intro d hd
        simp only [List.mem_singleton] at hd
        exact absurd hd (by simp)
      · rw [hdr] at h
        simp only [] at h
        rcases hvr : env.verifyResult with msg | verification
        · rw [hvr] at h
          simp only [] at h
          injection h with h1 h2
          injection h2 with h2 h3
          subst h1; subst h2
          refine ⟨hinv, ?_⟩
          intro d hd
          rcases List.mem_append.1 hd with hd' | hd'
          · rcases draft_events_are_draft _ _ _ hd' with ⟨v, hv⟩
            exact absurd hv (by simp)
          · simp only [List.mem_singleton] at hd'
            exact absurd hd' (by simp)
        · rw [hvr] at h
          simp only [] at h
          split at h
          case isTrue heos =>
            injection h with h1 h2
            injection h2 with h2 h3
            subst h1; subst h2
            refine ⟨runRoundBody_text_decode _ _ _ _ _ _ _ _, ?_⟩
            intro d hd
            rcases List.mem_append.1 hd with hd' | hd'
            · rcases List.mem_append.1 hd' with hd'' | hd''
              · rcases draft_events_are_draft _ _ _ hd'' with ⟨v, hv⟩
                exact absurd hv (by simp)
              · have := runRoundBody_not_terminal _ _ _ _ _ _ _ _ _ hd''
                simp [Event.isTerminal] at this
            · simp only [List.mem_singleton, _done_event, Event.done.injEq] at hd'
              subst hd'
              exact runRoundBody_text_decode _ _ _ _ _ _ _ _
          case isFalse heos =>
            injection h with h1 h2
            subst h1
            have h2a : (genLoop collab eos_tokens max_tokens
                (runRoundBody collab env.rands env.round_time_ms draft_tokens
                  draft_elapsed verification
                  { st with current_round := st.current_round + 1 } m).2.1
                (runRoundBody collab env.rands env.round_time_ms draft_tokens
                  draft_elapsed verification
                  { st with current_round := st.current_round + 1 } m).2.2
                rest).2.1 = stf := by rw [h2]
            rcases ih _ _ _ _ _ rfl (runRoundBody_text_decode _ _ _ _ _ _ _ _) with
              ⟨iha, ihb⟩
            subst h2a
            refine ⟨iha, ?_⟩
            intro d hd
            rcases List.mem_append.1 hd with hd' | hd'
            · rcases List.mem_append.1 hd' with hd'' | hd''
              · rcases draft_events_are_draft _ _ _ hd'' with ⟨v, hv⟩
                exact absurd hv (by simp)
              · have := runRoundBody_not_terminal _ _ _ _ _ _ _ _ _ hd''
                simp [Event.isTerminal] at this
            · exact ihb d hd'

theorem run_comparisons (rands : ℕ → ℝ) (drafts : List DraftInput)
    (targets : List TargetInput) :
    (run_rejection_sampling rands drafts targets).comparisons =
      (runAux rands drafts targets 0 0).1 := by
  unfold run_rejection_sampling
  by_cases hcond : (runAux rands drafts targets 0 0).2 = drafts.length ∧
      drafts.length < targets.length
  · rw [if_pos hcond]
    rcases htg : targets.get? drafts.length with _ | t <;> rfl
  · rw [if_neg hcond]

theorem run_accepted_count (rands : ℕ → ℝ) (drafts : List DraftInput)
    (targets : List TargetInput) :
    (run_rejection_sampling rands drafts targets).accepted_count =
      (runAux rands drafts targets 0 0).2 := by
  unfold run_rejection_sampling
  by_cases hcond : (runAux rands drafts targets 0 0).2 = drafts.length ∧
      drafts.length < targets.length
  · rw [if_pos hcond]
    rcases htg : targets.get? drafts.length with _ | t <;> rfl
  · rw [if_neg hcond]

theorem run_bonus (rands : ℕ → ℝ) (drafts : List DraftInput)
    (targets : List TargetInput) :
    (run_rejection_sampling rands drafts targets).bonus_token =
      (if (runAux rands drafts targets 0 0).2 = drafts.length ∧
          drafts.length < targets.length
       then (targets.get? drafts.length).map (fun t => t.token_str)
       else none) := by
  unfold run_rejection_sampling
  by_cases hcond : (runAux rands drafts targets 0 0).2 = drafts.length ∧
      drafts.length < targets.length
  · rw [if_pos hcond, if_pos hcond]
    rcases htg : targets.get? drafts.length with _ | t
    · exfalso
      have := List.get?_eq_none.1 htg
      omega
    · rfl
  · rw [if_neg hcond, if_neg hcond]

theorem run_good (rands : ℕ → ℝ) (drafts : List DraftInput)
    (targets : List TargetInput) :
    GoodFrom 0 (run_rejection_sampling rands drafts targets).comparisons := by
  rw [run_comparisons]
  exact runAux_good rands drafts targets 0 0

/-- Case 2 of `samplePosition` in explicit form. -/
theorem samplePosition_case2 (u : ℝ) (i : ℕ) (draft : DraftInput)
    (target : TargetInput) (p : ℝ)
    (hne : ¬draft.token_str = target.token_str)
    (hp : lookupStr target.top_logprobs draft.token_str = some p) :
    samplePosition u i draft target =
      if u < min 1 (Real.exp (p - draft.logprob)) then
        .accept
          ⟨i, .accepted, draft.token_str, draft.token_str, some draft.token_id,
            draft.logprob, some p, some (min 1 (Real.exp (p - draft.logprob)))⟩
          true
      else
        .reject
          ⟨i, .rejected, draft.token_str, target.token_str, some draft.token_id,
            draft.logprob, some p, some (min 1 (Real.exp (p - draft.logprob)))⟩
          ⟨i, .resampled, draft.token_str, target.token_str, none,
            draft.logprob, lookupStr target.top_logprobs target.token_str, some 0⟩
          true := by
  unfold samplePosition
  rw [if_neg hne, hp]

/-- **C3**: at a position where the draft token differs from the target's
token but occurs in the target's top-logprob map with logprob `p`, and the
draft logprob is `q`, the sampler computes `α = min(1, exp(p − q))` and
accepts (with `final_id = draft.id` and `α` recorded) exactly when the
uniform draw satisfies `u < α`; when `p ≥ q` the acceptance probability is
`1` and any draw in `[0, 1)` is accepted deterministically. -/
theorem c3_acceptance_rule (u : ℝ) (i : ℕ) (draft : DraftInput)
    (target : TargetInput) (p : ℝ)
    (hne : draft.token_str ≠ target.token_str)
    (hp : lookupStr target.top_logprobs draft.token_str = some p) :
    (samplePosition u i draft target =
        .accept
          ⟨i, .accepted, draft.token_str, draft.token_str, some draft.token_id,
            draft.logprob, some p, some (min 1 (Real.exp (p - draft.logprob)))⟩
          true ↔
      u < min 1 (Real.exp (p - draft.logprob))) ∧
    (draft.logprob ≤ p → min 1 (Real.exp (p - draft.logprob)) = 1) ∧
    (draft.logprob ≤ p → 0 ≤ u → u < 1 →
      samplePosition u i draft target =
        .accept
          ⟨i, .accepted, draft.token_str, draft.token_str, some draft.token_id,
            draft.logprob, some p, some 1⟩
          true) := by
  have halpha : ∀ _ : draft.logprob ≤ p, min 1 (Real.exp (p - draft.logprob)) = 1 := by
    intro hq
    refine min_eq_left ?_
    rw [show (1 : ℝ) = Real.exp 0 from Real.exp_zero.symm]
    exact Real.exp_le_exp.2 (by linarith)
  rw [samplePosition_case2 u i draft target p hne hp]
  refine ⟨?_, halpha, ?_⟩
  · constructor
    · intro h
      by_contra hu
      rw [if_neg hu] at h
      exact StepResult.noConfusion h
    · intro hu
      rw [if_pos hu]
  · intro hq hu0 hu1
    have h1 := halpha hq
    rw [if_pos (by rw [h1]; exact hu1), h1]

/-- **C3 witness**: concrete case-2 inputs with `p = q = −1`, `u = 1/2`:
the acceptance probability is `1` and the draw is accepted. -/
theorem c3_acceptance_rule_witness :
    (("a" : String) ≠ "b") ∧
    lookupStr [("a", (-1 : ℝ))] "a" = some (-1) ∧
    ((-1 : ℝ) ≤ -1) ∧ ((0 : ℝ) ≤ 1 / 2) ∧ ((1 / 2 : ℝ) < 1) ∧
    samplePosition (1 / 2) 0 ⟨"a", 3, -1⟩ ⟨"b", [("a", -1)]⟩ =
      .accept ⟨0, .accepted, "a", "a", some 3, -1, some (-1), some 1⟩ true :=
  ⟨by decide, rfl, le_refl _, by norm_num, by norm_num,
    (c3_acceptance_rule (1 / 2) 0 ⟨"a", 3, -1⟩ ⟨"b", [("a", -1)]⟩ (-1)
      (by decide) rfl).2.2 (le_refl _) (by norm_num) (by norm_num)⟩

/-- **C6**: the windowed `baseline_tps` equals the number of rounds in the
window divided by the windowed sum of `verify_latency_ms / (k+1)`, times
1000; for a single recorded round with `verify_latency_ms = V` and `k = K`
it equals `1000·(K+1)/V`. -/
theorem c6_baseline_tps (t : MetricsTracker) (hw : t.window ≠ [])
    (hpos : 0 < (t.window.map fun r => r.verify_latency_ms / ((r.k : ℚ) + 1)).sum)
    (V : ℚ) (K acc tot prod : ℕ) (dms rtms : ℚ) (hV : 0 < V) :
    t.baseline_tps = (t.window.length : ℚ) /
      (t.window.map fun r => r.verify_latency_ms / ((r.k : ℚ) + 1)).sum * 1000 ∧
    ((MetricsTracker.init 50).record_round
      ⟨acc, tot, prod, dms, V, rtms, K⟩).baseline_tps =
      1000 * ((K : ℚ) + 1) / V := by
  constructor
  · rw [MetricsTracker.baseline_tps, if_neg hw, if_pos hpos]
  · have hk : (0 : ℚ) < (K : ℚ) + 1 := by positivity
    have hwin : ((MetricsTracker.init 50).record_round
        ⟨acc, tot, prod, dms, V, rtms, K⟩).window =
        [⟨acc, tot, prod, dms, V, rtms, K⟩] := rfl
    rw [MetricsTracker.baseline_tps, hwin]
    rw [if_neg (by simp)]
    simp only [List.map_cons, List.map_nil, List.sum_cons, List.sum_nil,
      List.length_cons, List.length_nil]
    rw [if_pos (by positivity)]
    have hV' : V ≠ 0 := ne_of_gt hV
    have hk' : ((K : ℚ) + 1) ≠ 0 := ne_of_gt hk
    field_simp
    ring

/-- **C6 witness**: one round with `k = 4`, `verify_latency_ms = 50` gives
windowed `baseline_tps = 100`. -/
theorem c6_baseline_tps_witness :
    (((MetricsTracker.init 50).record_round ⟨4, 4, 5, 10, 50, 60, 4⟩).window ≠ []) ∧
    (0 : ℚ) < 50 ∧
    ((MetricsTracker.init 50).record_round ⟨4, 4, 5, 10, 50, 60, 4⟩).baseline_tps
      = 100 := by
  refine ⟨by decide, by norm_num, ?_⟩
  have h := (c6_baseline_tps
    ((MetricsTracker.init 50).record_round ⟨4, 4, 5, 10, 50, 60, 4⟩)
    (by decide) (by norm_num [MetricsTracker.record_round, MetricsTracker.init])
    50 4 4 4 5 10 60 (by norm_num)).2
  rw [h]
  norm_num

/-- **C7**: the sampler is pure and deterministic given the injected
uniform draw stream: it consumes at most one draw per drafted position, so
any two runs on the same inputs whose draw streams agree on the first
`drafts.length` indices produce identical `RoundResult`s; the embedding
has no other source of nondeterminism or effects. -/
theorem c7_determinism (drafts : List DraftInput) (targets : List TargetInput)
    (r1 r2 : ℕ → ℝ) (h : ∀ n, n < drafts.length → r1 n = r2 n) :
    run_rejection_sampling r1 drafts targets =
      run_rejection_sampling r2 drafts targets := by
  unfold run_rejection_sampling
  rw [runAux_ext r1 r2 drafts targets 0 0 (fun n hn1 hn2 => h n (by omega))]

/-- **C7 witness**: two draw streams agreeing on index 0 yield the same
result on a one-draft round. -/
theorem c7_determinism_witness :
    (∀ n, n < 1 →
      (fun _ : ℕ => (1 / 2 : ℝ)) n =
        (fun k : ℕ => if k = 0 then (1 / 2 : ℝ) else 1 / 3) n) ∧
    run_rejection_sampling (fun _ => (1 / 2 : ℝ))
        [⟨"a", 1, -1⟩] [⟨"a", [("a", -1)]⟩] =
      run_rejection_sampling (fun k => if k = 0 then (1 / 2 : ℝ) else 1 / 3)
        [⟨"a", 1, -1⟩] [⟨"a", [("a", -1)]⟩] := by
  have hagree : ∀ n, n < 1 →
      (fun _ : ℕ => (1 / 2 : ℝ)) n =
        (fun k : ℕ => if k = 0 then (1 / 2 : ℝ) else 1 / 3) n := by
    intro n hn
    rw [Nat.lt_one_iff] at hn
    subst hn
    simp
  exact ⟨hagree, c7_determinism _ _ _ _ hagree⟩

/-- **C2 counterexample**: on a first-position rejection the sampler
returns a Rejected/Resampled pair sharing position 0, so the comparison
positions are `[0, 0]` — the list is not strictly ascending by position as
the claim states. -/
theorem c2_counterexample :
    ¬ List.Chain' (· < ·)
      ((run_rejection_sampling (fun _ => (1 / 2 : ℝ)) [⟨"a", 1, -1⟩]
        [⟨"b", [("b", -1)]⟩]).comparisons.map fun c => c.position) := by
  intro hchain
  have heq : ((run_rejection_sampling (fun _ => (1 / 2 : ℝ)) [⟨"a", 1, -1⟩]
      [⟨"b", [("b", -1)]⟩]).comparisons.map fun c => c.position) = [0, 0] := rfl
  rw [heq] at hchain
  simp [List.chain'_cons] at hchain

/-- **C2 (amended)**: the comparison list's positions are non-decreasing,
and strictly ascend except that a Rejected/Resampled pair shares its
position and ends the list; at most one Accepted and at most one Resampled
comparison exist per position; every Rejected comparison is immediately
followed by exactly one Resampled comparison at the same position carrying
the target's token; and no comparison exists beyond the first rejection's
pair. -/
theorem c2_round_invariants (rands : ℕ → ℝ) (drafts : List DraftInput)
    (targets : List TargetInput) (comps : List ComparisonResult)
    (hc : (run_rejection_sampling rands drafts targets).comparisons = comps) :
    List.Chain' (fun a b => a.position ≤ b.position) comps ∧
    (∀ j a b, comps.get? j = some a → comps.get? (j + 1) = some b →
      a.position = b.position →
      a.status = .rejected ∧ b.status = .resampled ∧ comps.length = j + 2) ∧
    (∀ j k a b, comps.get? j = some a → comps.get? k = some b →
      a.status = .accepted → b.status = .accepted →
      a.position = b.position → j = k) ∧
    (∀ j k a b, comps.get? j = some a → comps.get? k = some b →
      a.status = .resampled → b.status = .resampled →
      a.position = b.position → j = k) ∧
    (∀ j a, comps.get? j = some a → a.status = .rejected →
      ∃ b, comps.get? (j + 1) = some b ∧ b.status = .resampled ∧
        b.position = a.position ∧
        (∃ t, targets.get? a.position = some t ∧ b.final_token = t.token_str) ∧
        comps.length = j + 2) := by
  have hcomp : comps = (runAux rands drafts targets 0 0).1 := by
    rw [← hc, run_comparisons]
  rcases runAux_shape rands drafts targets 0 0 (runAux rands drafts targets 0 0).1
      (runAux rands drafts targets 0 0).2 rfl with
    ⟨hlen, hacc, hget⟩ |
    ⟨front, c1, c2, heq, hacc, hfd, hft, hget, hs1, hs2, hp1, hp2,
      ⟨t, htg, htf1, htf2⟩, hid2, hap2⟩
  · -- all processed positions accepted: positions are 0, 1, 2, …
    rw [← hcomp] at hlen hget
    have hadj : ∀ j a b, comps.get? j = some a → comps.get? (j + 1) = some b →
        a.position ≤ b.position ∧ ¬a.position = b.position := by
      intro j a b hja hjb
      have ha := hget j a hja
      have hb := hget (j + 1) b hjb
      constructor
      · omega
      · omega
    refine ⟨?_, ?_, ?_, ?_, ?_⟩
    · rw [List.chain'_iff_get]
      intro i hi
      have h1 : comps.get? i = some (comps.get ⟨i, by omega⟩) :=
        List.get?_eq_get _
      have h2 : comps.get? (i + 1) = some (comps.get ⟨i + 1, by omega⟩) :=
        List.get?_eq_get _
      exact (hadj i _ _ h1 h2).1
    · intro j a b hja hjb hpos
      exact absurd hpos (hadj j a b hja hjb).2
    · intro j k a b hja hkb _ _ hpos
      have ha := hget j a hja
      have hb := hget k b hkb
      omega
    · intro j k a b hja hkb hra _ _
      have ha := hget j a hja
      rw [ha.1] at hra
      exact absurd hra (by simp)
    · intro j a hja hra
      have ha := hget j a hja
      rw [ha.1] at hra
      exact absurd hra (by simp)
  · -- a run of accepted comparisons ended by the rejection pair
    rw [← hcomp] at heq
    have hg1 : comps.get? front.length = some c1 := by
      rw [heq, List.get?_append_right le_rfl]
      simp
    have hg2 : comps.get? (front.length + 1) = some c2 := by
      rw [heq, List.get?_append_right (by omega)]
      have h1 : front.length + 1 - front.length = 1 := by omega
      rw [h1]
      rfl
    have hglen : comps.length = front.length + 2 := by
      rw [heq]
      simp
    have hchar : ∀ j a, comps.get? j = some a →
        (j < front.length ∧ front.get? j = some a) ∨
        (j = front.length ∧ a = c1) ∨ (j = front.length + 1 ∧ a = c2) := by
      intro j a hja
      rcases Nat.lt_trichotomy j front.length with hj | hj | hj
      · rw [heq, List.get?_append hj] at hja
        exact Or.inl ⟨hj, hja⟩
      · subst hj
        rw [hg1] at hja
        injection hja with h
        exact Or.inr (Or.inl ⟨rfl, h.symm⟩)
      · rcases Nat.lt_or_ge j (front.length + 2) with hj2 | hj2
        · have hj1 : j = front.length + 1 := by omega
          subst hj1
          rw [hg2] at hja
          injection hja with h
          exact Or.inr (Or.inr ⟨rfl, h.symm⟩)
        · rw [List.get?_eq_none.2 (by omega)] at hja
          exact absurd hja (by simp)
    have hadj : ∀ j a b, comps.get? j = some a → comps.get? (j + 1) = some b →
        a.position ≤ b.position ∧ (a.position = b.position →
          a.status = .rejected ∧ b.status = .resampled ∧
            comps.length = j + 2) := by
      intro j a b hja hjb
      rcases hchar j a hja with ⟨hj, hfa⟩ | ⟨hj, rfl⟩ | ⟨hj, rfl⟩
      · have ha := hget j a hfa
        rcases hchar (j + 1) b hjb with ⟨hj', hfb⟩ | ⟨hj', rfl⟩ | ⟨hj', rfl⟩
        · have hb := hget (j + 1) b hfb
          refine ⟨by omega, fun hpos => absurd hpos (by omega)⟩
        · refine ⟨by omega, fun hpos => absurd hpos (by omega)⟩
        · omega
      · rcases hchar (j + 1) b hjb with ⟨hj', hfb⟩ | ⟨hj', rfl⟩ | ⟨hj', rfl⟩
        · omega
        · omega
        · exact ⟨by omega, fun _ => ⟨hs1, hs2, by omega⟩⟩
      · rw [List.get?_eq_none.2 (by omega)] at hjb
        exact absurd hjb (by simp)
    refine ⟨?_, ?_, ?_, ?_, ?_⟩
    · rw [List.chain'_iff_get]
      intro i hi
      have h1 : comps.get? i = some (comps.get ⟨i, by omega⟩) :=
        List.get?_eq_get _
      have h2 : comps.get? (i + 1) = some (comps.get ⟨i + 1, by omega⟩) :=
        List.get?_eq_get _
      exact (hadj i _ _ h1 h2).1
    · intro j a b hja hjb hpos
      exact (hadj j a b hja hjb).2 hpos
    · intro j k a b hja hkb hsa hsb hpos
      rcases hchar j a hja with ⟨hj, hfa⟩ | ⟨hj, rfl⟩ | ⟨hj, rfl⟩
      · rcases hchar k b hkb with ⟨hk, hfb⟩ | ⟨hk, rfl⟩ | ⟨hk, rfl⟩
        · have ha := hget j a hfa
          have hb := hget k b hfb
          omega
        · rw [hs1] at hsb
          exact absurd hsb (by simp)
        · rw [hs2] at hsb
          exact absurd hsb (by simp)
      · rw [hs1] at hsa
        exact absurd hsa (by simp)
      · rw [hs2] at hsa
        exact absurd hsa (by simp)
    · intro j k a b hja hkb hsa hsb hpos
      rcases hchar j a hja with ⟨hj, hfa⟩ | ⟨hj, rfl⟩ | ⟨hj, rfl⟩
      · have ha := hget j a hfa
        rw [ha.1] at hsa
        exact absurd hsa (by simp)
      · rw [hs1] at hsa
        exact absurd hsa (by simp)
      · rcases hchar k b hkb with ⟨hk, hfb⟩ | ⟨hk, rfl⟩ | ⟨hk, rfl⟩
        · have hb := hget k b hfb
          rw [hb.1] at hsb
          exact absurd hsb (by simp)
        · rw [hs1] at hsb
          exact absurd hsb (by simp)
        · omega
    · intro j a hja hra
      rcases hchar j a hja with ⟨hj, hfa⟩ | ⟨hj, rfl⟩ | ⟨hj, rfl⟩
      · have ha := hget j a hfa
        rw [ha.1] at hra
        exact absurd hra (by simp)
      · subst hj
        refine ⟨c2, hg2, hs2, by omega, ⟨t, ?_, htf2⟩, by omega⟩
        have hpa : a.position = front.length := by omega
        rw [hpa]
        exact htg
      · rw [hs2] at hra
        exact absurd hra (by simp)

/-- **C2 witness**: on a concrete first-position rejection the pair
structure holds: the Rejected comparison at index 0 is immediately
followed by the Resampled one at the same position carrying the target's
token, and nothing follows. -/
theorem c2_round_invariants_witness :
    ((run_rejection_sampling (fun _ => (1 / 2 : ℝ)) [⟨"a", 1, -1⟩]
        [⟨"b", [("b", -1)]⟩]).comparisons =
      [⟨0, .rejected, "a", "b", some 1, -1, none, some 0⟩,
       ⟨0, .resampled, "a", "b", none, -1, some (-1), some 0⟩]) ∧
    (∃ b, ([⟨0, .rejected, "a", "b", some 1, -1, none, some 0⟩,
        ⟨0, .resampled, "a", "b", none, -1, some (-1), some 0⟩] :
        List ComparisonResult).get? (0 + 1) = some b ∧
      b.status = .resampled ∧
      b.position = (⟨0, .rejected, "a", "b", some 1, -1, none, some 0⟩ :
        ComparisonResult).position ∧
      (∃ t, ([⟨"b", [("b", -1)]⟩] : List TargetInput).get?
          (⟨0, .rejected, "a", "b", some 1, -1, none, some 0⟩ :
            ComparisonResult).position = some t ∧
        b.final_token = t.token_str) ∧
      ([⟨0, .rejected, "a", "b", some 1, -1, none, some 0⟩,
        ⟨0, .resampled, "a", "b", none, -1, some (-1), some 0⟩] :
        List ComparisonResult).length = 0 + 2) :=
  ⟨rfl,
    (c2_round_invariants (fun _ => (1 / 2 : ℝ)) [⟨"a", 1, -1⟩]
      [⟨"b", [("b", -1)]⟩]
      [⟨0, .rejected, "a", "b", some 1, -1, none, some 0⟩,
       ⟨0, .resampled, "a", "b", none, -1, some (-1), some 0⟩]
      rfl).2.2.2.2 0 _ rfl rfl⟩

/-- The statuses of the VerifyResult events emitted at position `p`, in
emission order. -/
def verifyStatusesAt (p : ℕ) (evs : List Event) : List TokenStatus :=
  evs.filterMap fun e =>
    match e with
    | .verify v => if v.position = p then some v.status else none
    | _ => none

theorem filterMap_length_all_some {α β : Type _} (f : α → Option β) :
    ∀ l : List α, (∀ a ∈ l, ∃ b, f a = some b) →
      (l.filterMap f).length = l.length := by
  intro l
  induction l with
  | nil => intro _; rfl
  | cons a l ih =>
    intro h
    rcases h a (by simp) with ⟨b, hb⟩
    rw [List.filterMap_cons, hb]
    simp only [List.length_cons]
    rw [ih fun x hx => h x (by simp [hx])]

/-- A Rejected comparison pins down the whole round shape: it is the
second-to-last comparison, followed by its Resampled partner, preceded by
only accepted comparisons, and the round has no bonus. -/
theorem run_rejected_shape (rands : ℕ → ℝ) (drafts : List DraftInput)
    (targets : List TargetInput) (j : ℕ) (c : ComparisonResult)
    (hj : (run_rejection_sampling rands drafts targets).comparisons.get? j = some c)
    (hr : c.status = .rejected) :
    ∃ front c2,
      (run_rejection_sampling rands drafts targets).comparisons = front ++ [c, c2] ∧
      j = front.length ∧
      (run_rejection_sampling rands drafts targets).accepted_count = front.length ∧
      front.length < drafts.length ∧ front.length < targets.length ∧
      (∀ k a, front.get? k = some a → a.status = .accepted ∧ a.position = k) ∧
      c2.status = .resampled ∧ c.position = front.length ∧
      c2.position = front.length ∧
      (∃ t, targets.get? front.length = some t ∧ c.final_token = t.token_str ∧
        c2.final_token = t.token_str) ∧
      (run_rejection_sampling rands drafts targets).bonus_token = none := by
  have hcomp := run_comparisons rands drafts targets
  have hcount := run_accepted_count rands drafts targets
  rcases runAux_shape rands drafts targets 0 0 (runAux rands drafts targets 0 0).1
      (runAux rands drafts targets 0 0).2 rfl with
    ⟨hlen, hacc, hget⟩ |
    ⟨front, c1, c2, heq, hacc, hfd, hft, hget, hs1, hs2, hp1, hp2,
      ⟨t, htg, htf1, htf2⟩, hid2, hap2⟩
  · rw [hcomp] at hj
    have := (hget j c hj).1
    rw [this] at hr
    exact absurd hr (by simp)
  · rw [hcomp, heq] at hj
    have hcases :
        (j < front.length ∧ front.get? j = some c) ∨
        (j = front.length ∧ c = c1) ∨ (j = front.length + 1 ∧ c = c2) := by
      rcases Nat.lt_trichotomy j front.length with hlt | hlt | hlt
      · rw [List.get?_append hlt] at hj
        exact Or.inl ⟨hlt, hj⟩
      · subst hlt
        rw [List.get?_append_right le_rfl] at hj
        simp only [Nat.sub_self, List.get?_cons_zero, Option.some.injEq] at hj
        exact Or.inr (Or.inl ⟨rfl, hj.symm⟩)
      · rcases Nat.lt_or_ge j (front.length + 2) with hlt2 | hlt2
        · have h1 : j = front.length + 1 := by omega
          subst h1
          rw [List.get?_append_right (by omega)] at hj
          have h2 : front.length + 1 - front.length = 1 := by omega
          rw [h2] at hj
          simp only [List.get?_cons_succ, List.get?_cons_zero,
            Option.some.injEq] at hj
          exact Or.inr (Or.inr ⟨rfl, hj.symm⟩)
        · rw [List.get?_eq_none.2 (by simp; omega)] at hj
          exact absurd hj (by simp)
    rcases hcases with ⟨hlt, hfc⟩ | ⟨hjeq, rfl⟩ | ⟨hjeq, rfl⟩
    · have := (hget j c hfc).1
      rw [this] at hr
      exact absurd hr (by simp)
    · refine ⟨front, c2, ?_, hjeq, ?_, hfd, hft, ?_, hs2, by omega, by omega,
        ⟨t, htg, htf1, htf2⟩, ?_⟩
      · rw [hcomp, heq]
      · rw [hcount, hacc]
      · intro k a hka
        have := hget k a hka
        exact ⟨this.1, by omega⟩
      · rw [run_bonus]
        rw [if_neg ?_]
        intro hbad
        omega
    · rw [hs2] at hr
      exact absurd hr (by simp)


/-- **C1 counterexample**: on a first-position rejection the speculator's
event emission yields *two* VerifyResult events for position 0 — first the
Rejected, then the Resampled — contradicting the claim that exactly one
event (the Resampled) is yielded per rejected position.  (The
`added_positions` skip only records accepted/resampled positions, which
never recur.) -/
theorem c1_counterexample :
    verifyStatusesAt 0
      (_emit_verify_events (fun _ => [7])
        (run_rejection_sampling (fun _ => (1 / 2 : ℝ)) [⟨"a", 1, -1⟩]
          [⟨"b", [("b", -1)]⟩])
        1 ⟨[⟨"b", -1, [("b", -1)], 0⟩], 10⟩ 1).1 =
      [.rejected, .resampled] := rfl

/-- **C1 (amended)**: for every Rejected/Resampled pair the emission
yields exactly two VerifyResult events for that position — in order the
Rejected then the Resampled — and the commit collection still counts that
position once: `tokens_this_round` has `accepted_count + 1` entries. -/
theorem c1_rejected_pair_events (rands : ℕ → ℝ) (tokenize : String → List ℤ)
    (drafts : List DraftInput) (targets : List TargetInput)
    (verification : VerificationResult) (current_round : ℕ)
    (draft_tokens_length j : ℕ) (c : ComparisonResult)
    (hj : (run_rejection_sampling rands drafts targets).comparisons.get? j = some c)
    (hr : c.status = .rejected) :
    verifyStatusesAt c.position
      (_emit_verify_events tokenize (run_rejection_sampling rands drafts targets)
        draft_tokens_length verification current_round).1 =
      [.rejected, .resampled] ∧
    (_emit_verify_events tokenize (run_rejection_sampling rands drafts targets)
        draft_tokens_length verification current_round).2.1.length =
      (run_rejection_sampling rands drafts targets).accepted_count + 1 := by
  rcases run_rejected_shape rands drafts targets j c hj hr with
    ⟨front, c2, heq, hjeq, hacc, hfd, hft, hget, hs2, hcp, hp2, ⟨t, htg, htf⟩, hbn⟩
  rw [emit_events_eq tokenize _ draft_tokens_length verification current_round
    (run_good rands drafts targets)]
  rw [heq, hbn, hacc]
  constructor
  · unfold verifyStatusesAt
    simp only [bonusEvents, List.append_nil, List.filterMap_map]
    have hfun : ((fun e => match e with
        | Event.verify v => if v.position = c.position then some v.status else none
        | _ => none) ∘ mkVerifyEvent verification current_round) =
        fun a => if a.position = c.position then some a.status else none := rfl
    rw [hfun, List.filterMap_append]
    have hfront : List.filterMap
        (fun a => if a.position = c.position then some a.status else none)
        front = [] := by
      rw [List.filterMap_eq_nil]
      intro a ha
      rcases List.mem_iff_get?.1 ha with ⟨k, hk⟩
      have hka := hget k a hk
      have hklen : k < front.length := by
        by_contra hge
        rw [List.get?_eq_none.2 (by omega)] at hk
        exact absurd hk (by simp)
      rw [if_neg (by omega)]
    rw [hfront]
    simp only [List.nil_append, List.filterMap_cons, List.filterMap_nil]
    simp [hp2, hcp, hr, hs2]
  · simp only [bonusToks, List.append_nil, List.filterMap_append]
    rw [List.length_append]
    have hfront : (front.filterMap commitTok).length = front.length :=
      filterMap_length_all_some commitTok front (by
        intro a ha
        rcases List.mem_iff_get?.1 ha with ⟨k, hk⟩
        have hka := hget k a hk
        exact ⟨a.final_token, by simp [commitTok, hka.1]⟩)
    rw [hfront]
    have hpair : List.filterMap commitTok [c, c2] = [c2.final_token] := by
      simp only [List.filterMap_cons, List.filterMap_nil]
      rw [show commitTok c = none from by simp [commitTok, hr],
        show commitTok c2 = some c2.final_token from by simp [commitTok, hs2]]
    rw [hpair]
    simp

/-- **C1 witness**: the amended pair-emission behaviour at a concrete
first-position rejection. -/
theorem c1_rejected_pair_events_witness :
    ((run_rejection_sampling (fun _ => (1 / 2 : ℝ)) [⟨"a", 1, -1⟩]
        [⟨"b", [("b", -1)]⟩]).comparisons.get? 0 =
      some ⟨0, .rejected, "a", "b", some 1, -1, none, some 0⟩) ∧
    (verifyStatusesAt 0
      (_emit_verify_events (fun _ => [7])
        (run_rejection_sampling (fun _ => (1 / 2 : ℝ)) [⟨"a", 1, -1⟩]
          [⟨"b", [("b", -1)]⟩]) 1 ⟨[⟨"b", -1, [("b", -1)], 0⟩], 10⟩ 2).1 =
      [.rejected, .resampled] ∧
    (_emit_verify_events (fun _ => [7])
        (run_rejection_sampling (fun _ => (1 / 2 : ℝ)) [⟨"a", 1, -1⟩]
          [⟨"b", [("b", -1)]⟩]) 1 ⟨[⟨"b", -1, [("b", -1)], 0⟩], 10⟩ 2).2.1.length =
      (run_rejection_sampling (fun _ => (1 / 2 : ℝ)) [⟨"a", 1, -1⟩]
        [⟨"b", [("b", -1)]⟩]).accepted_count + 1) :=
  ⟨rfl,
    c1_rejected_pair_events (fun _ => (1 / 2 : ℝ)) (fun _ => [7])
      [⟨"a", 1, -1⟩] [⟨"b", [("b", -1)]⟩] ⟨[⟨"b", -1, [("b", -1)], 0⟩], 10⟩ 2 1 0
      ⟨0, .rejected, "a", "b", some 1, -1, none, some 0⟩ rfl rfl⟩

/-- **C5**: the sampler returns a bonus token iff every drafted position
was accepted and the target returned strictly more positions than there
are drafts; the bonus carries `targets[K].token_str`; `accepted_count ≤ K`
always with bonus presence implying `accepted_count = K`; and the
speculator emits a (non-empty) bonus as a Bonus VerifyResult event with
`acceptance_prob = 1`. -/
theorem c5_bonus_iff (rands : ℕ → ℝ) (tokenize : String → List ℤ)
    (drafts : List DraftInput) (targets : List TargetInput)
    (verification : VerificationResult) (current_round : ℕ) :
    ((run_rejection_sampling rands drafts targets).bonus_token ≠ none ↔
      ((∀ j, j < drafts.length →
          ∃ c ∈ (run_rejection_sampling rands drafts targets).comparisons,
            c.position = j ∧ c.status = .accepted) ∧
        drafts.length < targets.length)) ∧
    (∀ s, (run_rejection_sampling rands drafts targets).bonus_token = some s →
      ∃ t, targets.get? drafts.length = some t ∧ s = t.token_str) ∧
    (run_rejection_sampling rands drafts targets).accepted_count ≤ drafts.length ∧
    ((run_rejection_sampling rands drafts targets).bonus_token ≠ none →
      (run_rejection_sampling rands drafts targets).accepted_count =
        drafts.length) ∧
    (∀ s, (run_rejection_sampling rands drafts targets).bonus_token = some s →
      s ≠ "" →
      Event.verify ⟨current_round, drafts.length, s, 0, .bonus, 0, none, some 1,
          none, [], verification.elapsed_ms⟩ ∈
        (_emit_verify_events tokenize (run_rejection_sampling rands drafts targets)
          drafts.length verification current_round).1) := by
  have hbnon : (run_rejection_sampling rands drafts targets).bonus_token ≠ none ↔
      ((runAux rands drafts targets 0 0).2 = drafts.length ∧
        drafts.length < targets.length) := by
    rw [run_bonus]
    by_cases hcond : (runAux rands drafts targets 0 0).2 = drafts.length ∧
        drafts.length < targets.length
    · rw [if_pos hcond]
      rcases htg : targets.get? drafts.length with _ | t
      · exfalso
        have := List.get?_eq_none.1 htg
        omega
      · simp [hcond]
    · rw [if_neg hcond]
      simp [hcond]
  have hcomp := run_comparisons rands drafts targets
  have hcount := run_accepted_count rands drafts targets
  rcases runAux_shape rands drafts targets 0 0 (runAux rands drafts targets 0 0).1
      (runAux rands drafts targets 0 0).2 rfl with
    ⟨hlen, haceq, hget⟩ |
    ⟨front, c1, c2, heq, haceq, hfd, hft, hget, hs1, hs2, hp1, hp2,
      ⟨t, htg, htf1, htf2⟩, hid2, hap2⟩
  · -- all processed positions accepted
    have hforms : ((runAux rands drafts targets 0 0).2 = drafts.length ∧
        drafts.length < targets.length) ↔
        ((∀ j, j < drafts.length →
            ∃ c ∈ (run_rejection_sampling rands drafts targets).comparisons,
              c.position = j ∧ c.status = .accepted) ∧
          drafts.length < targets.length) := by
      constructor
      · rintro ⟨hacc, hdt⟩
        refine ⟨?_, hdt⟩
        intro j hj
        have hjlen : j < (runAux rands drafts targets 0 0).1.length := by omega
        have hg := hget j _ (List.get?_eq_get hjlen)
        refine ⟨(runAux rands drafts targets 0 0).1.get ⟨j, hjlen⟩, ?_, by omega, hg.1⟩
        rw [hcomp]
        exact List.get_mem _ _ _
      · rintro ⟨hall, hdt⟩
        refine ⟨?_, hdt⟩
        omega
    refine ⟨hbnon.trans hforms, ?_, ?_, ?_, ?_⟩
    · intro s hs
      rw [run_bonus] at hs
      by_cases hcond : (runAux rands drafts targets 0 0).2 = drafts.length ∧
          drafts.length < targets.length
      · rw [if_pos hcond] at hs
        rcases htg : targets.get? drafts.length with _ | t2
        · rw [htg] at hs
          exact absurd hs (by simp)
        · rw [htg] at hs
          rw [Option.map_some'] at hs
          injection hs with hs
          exact ⟨t2, rfl, hs.symm⟩
      · rw [if_neg hcond] at hs
        exact absurd hs (by simp)
    · rw [hcount]
      omega
    · intro hb
      rw [hcount]
      exact (hbnon.1 hb).1
    · intro s hs hsne
      rw [emit_events_eq tokenize _ drafts.length verification current_round
        (run_good rands drafts targets), hs]
      apply List.mem_append.2
      right
      simp [bonusEvents, hsne]
  · -- rejection pair present: no bonus, accepted_count < drafts.length
    have hnb : (run_rejection_sampling rands drafts targets).bonus_token = none := by
      rw [run_bonus, if_neg ?_]
      intro hbad
      omega
    have hforms : ((runAux rands drafts targets 0 0).2 = drafts.length ∧
        drafts.length < targets.length) ↔
        ((∀ j, j < drafts.length →
            ∃ c ∈ (run_rejection_sampling rands drafts targets).comparisons,
              c.position = j ∧ c.status = .accepted) ∧
          drafts.length < targets.length) := by
      constructor
      · rintro ⟨hacc, hdt⟩
        omega
      · rintro ⟨hall, hdt⟩
        exfalso
        rcases hall front.length (by omega) with ⟨c, hcmem, hcpos, hcacc⟩
        rw [hcomp, heq] at hcmem
        rcases List.mem_append.1 hcmem with hm | hm
        · rcases List.mem_iff_get?.1 hm with ⟨k, hk⟩
          have hkg := hget k c hk
          have hklen : k < front.length := by
            by_contra hge
            rw [List.get?_eq_none.2 (by omega)] at hk
            exact absurd hk (by simp)
          omega
        · rcases List.mem_cons.1 hm with rfl | hm2
          · rw [hs1] at hcacc
            exact absurd hcacc (by simp)
          · rcases List.mem_singleton.1 hm2 with rfl
            rw [hs2] at hcacc
            exact absurd hcacc (by simp)
    refine ⟨hbnon.trans hforms, ?_, ?_, ?_, ?_⟩
    · intro s hs
      rw [hnb] at hs
      exact absurd hs (by simp)
    · rw [hcount]
      omega
    · intro hb
      exact absurd hnb (by simpa using hb)
    · intro s hs
      rw [hnb] at hs
      exact absurd hs (by simp)

/-- **C5 witness**: an all-accept round with a spare target position
yields the bonus `"b"` and its Bonus VerifyResult event with
`acceptance_prob = 1`. -/
theorem c5_bonus_iff_witness :
    ((run_rejection_sampling (fun _ => (1 / 2 : ℝ)) [⟨"a", 1, -1⟩]
        [⟨"a", [("a", -1)]⟩, ⟨"b", [("b", -1)]⟩]).bonus_token = some "b") ∧
    (("b" : String) ≠ "") ∧
    Event.verify ⟨3, 1, "b", 0, .bonus, 0, none, some 1, none, [], 10⟩ ∈
      (_emit_verify_events (fun _ => [7])
        (run_rejection_sampling (fun _ => (1 / 2 : ℝ)) [⟨"a", 1, -1⟩]
          [⟨"a", [("a", -1)]⟩, ⟨"b", [("b", -1)]⟩])
        1 ⟨[⟨"a", -1, [("a", -1)], 0⟩, ⟨"b", -1, [("b", -1)], 0⟩], 10⟩ 3).1 :=
  ⟨rfl, by decide,
    (c5_bonus_iff (fun _ => (1 / 2 : ℝ)) (fun _ => [7]) [⟨"a", 1, -1⟩]
      [⟨"a", [("a", -1)]⟩, ⟨"b", [("b", -1)]⟩]
      ⟨[⟨"a", -1, [("a", -1)], 0⟩, ⟨"b", -1, [("b", -1)], 0⟩], 10⟩ 3).2.2.2.2
      "b" rfl (by decide)⟩

/-- **C10**: the commit collection of `_emit_verify_events` is exactly the
per-comparison contribution (plus the bonus): an Accepted comparison has
its ID appended exactly when the ID is truthy — `some n` with `n ≠ 0` —
while its token text is always collected into `tokens_this_round` (so
`total_tokens_produced` still counts it); `some 0`, like `None`,
contributes no ID. -/
theorem c10_zero_id_commit (rands : ℕ → ℝ) (tokenize : String → List ℤ)
    (drafts : List DraftInput) (targets : List TargetInput)
    (verification : VerificationResult) (current_round draft_tokens_length : ℕ) :
    ((_emit_verify_events tokenize (run_rejection_sampling rands drafts targets)
        draft_tokens_length verification current_round).2.2 =
      (run_rejection_sampling rands drafts targets).comparisons.flatMap
        (commitIds tokenize) ++
        bonusIds tokenize
          (run_rejection_sampling rands drafts targets).bonus_token) ∧
    ((_emit_verify_events tokenize (run_rejection_sampling rands drafts targets)
        draft_tokens_length verification current_round).2.1 =
      (run_rejection_sampling rands drafts targets).comparisons.filterMap
        commitTok ++
        bonusToks (run_rejection_sampling rands drafts targets).bonus_token) ∧
    (∀ c : ComparisonResult, c.status = .accepted → c.final_token_id = some 0 →
      commitIds tokenize c = [] ∧ commitTok c = some c.final_token) ∧
    (∀ (c : ComparisonResult) (n : ℤ), c.status = .accepted →
      c.final_token_id = some n → n ≠ 0 → commitIds tokenize c = [n]) ∧
    (∀ (decode : List ℤ → String) (st : GenerationState)
      (toks : List String) (ids : List ℤ),
      (_update_context decode st toks ids).total_tokens_produced =
        st.total_tokens_produced + toks.length) := by
  have h := emit_events_eq tokenize (run_rejection_sampling rands drafts targets)
    draft_tokens_length verification current_round (run_good rands drafts targets)
  refine ⟨by rw [h], by rw [h], ?_, ?_, ?_⟩
  · intro c hacc hid
    constructor
    · simp [commitIds, hacc, hid]
    · simp [commitTok, hacc]
  · intro c n hacc hid hne
    simp [commitIds, hacc, hid, hne]
  · intro decode st toks ids
    rfl

/-- **C10 witness**: an exact-match acceptance whose draft token ID is `0`
commits the token text but no ID. -/
theorem c10_zero_id_commit_witness :
    ((⟨0, .accepted, "a", "a", some 0, -1, some (-1), some 1⟩ :
        ComparisonResult).status = .accepted) ∧
    ((⟨0, .accepted, "a", "a", some 0, -1, some (-1), some 1⟩ :
        ComparisonResult).final_token_id = some 0) ∧
    (commitIds (fun _ => [7])
        ⟨0, .accepted, "a", "a", some 0, -1, some (-1), some 1⟩ = [] ∧
      commitTok ⟨0, .accepted, "a", "a", some 0, -1, some (-1), some 1⟩ =
        some "a") :=
  ⟨rfl, rfl,
    (c10_zero_id_commit (fun _ => (1 / 2 : ℝ)) (fun _ => [7]) [⟨"a", 0, -1⟩]
      [⟨"a", [("a", -1)]⟩] ⟨[⟨"a", -1, [("a", -1)], 0⟩], 10⟩ 4 1).2.2.1
      ⟨0, .accepted, "a", "a", some 0, -1, some (-1), some 1⟩ rfl rfl⟩

/-- **C9**: in any round with at least one draft token and a nonempty
target response, the number of committed positions — the entries of
`tokens_this_round`, whose count is what `_update_context` adds to
`total_tokens_produced` — lies in `[1, len(draft_tokens) + 1]`. -/
theorem c9_commit_bounds (rands : ℕ → ℝ) (tokenize : String → List ℤ)
    (draft_tokens : List DraftToken) (verification : VerificationResult)
    (current_round : ℕ)
    (hd : draft_tokens ≠ []) (hv : verification.positions ≠ []) :
    (1 ≤ (_emit_verify_events tokenize
        (_run_rejection_sampling rands draft_tokens verification)
        draft_tokens.length verification current_round).2.1.length ∧
      (_emit_verify_events tokenize
        (_run_rejection_sampling rands draft_tokens verification)
        draft_tokens.length verification current_round).2.1.length ≤
        draft_tokens.length + 1) ∧
    (∀ (decode : List ℤ → String) (st : GenerationState) (ids : List ℤ),
      (_update_context decode st
        (_emit_verify_events tokenize
          (_run_rejection_sampling rands draft_tokens verification)
          draft_tokens.length verification current_round).2.1
        ids).total_tokens_produced =
      st.total_tokens_produced +
        (_emit_verify_events tokenize
          (_run_rejection_sampling rands draft_tokens verification)
          draft_tokens.length verification current_round).2.1.length) := by
  refine ⟨?_, fun decode st ids => rfl⟩
  have hrr : _run_rejection_sampling rands draft_tokens verification =
      run_rejection_sampling rands
        (draft_tokens.map fun dt => ⟨dt.token_str, dt.token_id, dt.logprob⟩)
        (verification.positions.map fun pos => ⟨pos.token_str, pos.top_logprobs⟩) :=
    rfl
  rw [hrr]
  rw [emit_events_eq tokenize _ draft_tokens.length verification current_round
    (run_good rands _ _)]
  have hdl : (draft_tokens.map fun dt =>
      (⟨dt.token_str, dt.token_id, dt.logprob⟩ : DraftInput)).length =
      draft_tokens.length := List.length_map _ _
  have htl : (verification.positions.map fun pos =>
      (⟨pos.token_str, pos.top_logprobs⟩ : TargetInput)).length =
      verification.positions.length := List.length_map _ _
  have hdl1 : 1 ≤ draft_tokens.length := by
    rcases draft_tokens with _ | ⟨d, ds⟩
    · exact absurd rfl hd
    · simp
  have htl1 : 1 ≤ verification.positions.length := by
    rcases hvp : verification.positions with _ | ⟨p, ps⟩
    · exact absurd hvp hv
    · simp
  have hcomp := run_comparisons rands
    (draft_tokens.map fun dt => ⟨dt.token_str, dt.token_id, dt.logprob⟩)
    (verification.positions.map fun pos => ⟨pos.token_str, pos.top_logprobs⟩)
  rcases runAux_shape rands
      (draft_tokens.map fun dt => ⟨dt.token_str, dt.token_id, dt.logprob⟩)
      (verification.positions.map fun pos => ⟨pos.token_str, pos.top_logprobs⟩)
      0 0 (runAux rands _ _ 0 0).1 (runAux rands _ _ 0 0).2 rfl with
    ⟨hlen, haceq, hget⟩ |
    ⟨front, c1, c2, heq, haceq, hfd, hft, hget, hs1, hs2, hp1, hp2,
      ⟨t, htg, htf1, htf2⟩, hid2, hap2⟩
  · -- all processed positions accepted
    rw [← hcomp] at hlen hget
    simp only [List.length_append]
    have hfm : ((run_rejection_sampling rands
        (draft_tokens.map fun dt => ⟨dt.token_str, dt.token_id, dt.logprob⟩)
        (verification.positions.map fun pos =>
          ⟨pos.token_str, pos.top_logprobs⟩)).comparisons.filterMap
        commitTok).length =
        (run_rejection_sampling rands
          (draft_tokens.map fun dt => ⟨dt.token_str, dt.token_id, dt.logprob⟩)
          (verification.positions.map fun pos =>
            ⟨pos.token_str, pos.top_logprobs⟩)).comparisons.length := by
      apply filterMap_length_all_some
      intro a ha
      rcases List.mem_iff_get?.1 ha with ⟨k, hk⟩
      have := hget k a hk
      exact ⟨a.final_token, by simp [commitTok, this.1]⟩
    rw [hfm, hlen, hdl, htl]
    have hb : (bonusToks (run_rejection_sampling rands
        (draft_tokens.map fun dt => ⟨dt.token_str, dt.token_id, dt.logprob⟩)
        (verification.positions.map fun pos =>
          ⟨pos.token_str, pos.top_logprobs⟩)).bonus_token).length ≤ 1 := by
      rcases (run_rejection_sampling rands _ _).bonus_token with _ | s
      · simp [bonusToks]
      · simp only [bonusToks]
        split
        · simp
        · simp
    constructor
    · omega
    · omega
  · -- rejection pair: no bonus, front.length + 1 commits
    rw [← hcomp] at heq
    have hnb : (run_rejection_sampling rands
        (draft_tokens.map fun dt => ⟨dt.token_str, dt.token_id, dt.logprob⟩)
        (verification.positions.map fun pos =>
          ⟨pos.token_str, pos.top_logprobs⟩)).bonus_token = none := by
      rw [run_bonus, if_neg ?_]
      intro hbad
      omega
    rw [heq, hnb]
    simp only [bonusToks, List.append_nil, List.filterMap_append,
      List.length_append]
    have hfm : (front.filterMap commitTok).length = front.length := by
      apply filterMap_length_all_some
      intro a ha
      rcases List.mem_iff_get?.1 ha with ⟨k, hk⟩
      have := hget k a hk
      exact ⟨a.final_token, by simp [commitTok, this.1]⟩
    have hpair : List.filterMap commitTok [c1, c2] = [c2.final_token] := by
      simp only [List.filterMap_cons, List.filterMap_nil]
      rw [show commitTok c1 = none from by simp [commitTok, hs1],
        show commitTok c2 = some c2.final_token from by simp [commitTok, hs2]]
    rw [hfm, hpair]
    rw [hdl] at hfd
    simp only [List.length_cons, List.length_nil]
    omega

/-- **C9 witness**: a one-draft exact-match round commits between 1 and 2
positions. -/
theorem c9_commit_bounds_witness :
    (([⟨1, "a", -1, 0, [], 1⟩] : List DraftToken) ≠ []) ∧
    ((⟨[⟨"a", -1, [("a", -1)], 0⟩], 10⟩ : VerificationResult).positions ≠ []) ∧
    (1 ≤ (_emit_verify_events (fun _ => [7])
        (_run_rejection_sampling (fun _ => (1 / 2 : ℝ))
          [⟨1, "a", -1, 0, [], 1⟩] ⟨[⟨"a", -1, [("a", -1)], 0⟩], 10⟩)
        ([⟨1, "a", -1, 0, [], 1⟩] : List DraftToken).length
        ⟨[⟨"a", -1, [("a", -1)], 0⟩], 10⟩ 5).2.1.length ∧
      (_emit_verify_events (fun _ => [7])
        (_run_rejection_sampling (fun _ => (1 / 2 : ℝ))
          [⟨1, "a", -1, 0, [], 1⟩] ⟨[⟨"a", -1, [("a", -1)], 0⟩], 10⟩)
        ([⟨1, "a", -1, 0, [], 1⟩] : List DraftToken).length
        ⟨[⟨"a", -1, [("a", -1)], 0⟩], 10⟩ 5).2.1.length ≤
        ([⟨1, "a", -1, 0, [], 1⟩] : List DraftToken).length + 1) :=
  ⟨by simp, by simp,
    (c9_commit_bounds (fun _ => (1 / 2 : ℝ)) (fun _ => [7])
      [⟨1, "a", -1, 0, [], 1⟩] ⟨[⟨"a", -1, [("a", -1)], 0⟩], 10⟩ 5
      (by simp) (by simp)).1⟩

/-- **C4**: context integrity. `_update_context` always re-establishes
`generated_text == decode(generated_ids)` by a fresh decode of the full
committed ID sequence (never by string concatenation), so — given the
tokeniser decodes the empty ID list to the empty string — at every round
boundary the state satisfies the identity, the final state of a `generate`
run satisfies it, and the `done` event's `generated_text` equals the
decode of all committed IDs. -/
theorem c4_text_decode (collab : DraftCollaborator) (eos_tokens : List String)
    (prompt : String) (max_tokens : ℕ) (start_ms : ℚ) (envs : List RoundEnv)
    (hdec : collab.decode [] = "") :
    (∀ (st : GenerationState) (toks : List String) (ids : List ℤ),
      (_update_context collab.decode st toks ids).generated_text_so_far =
        collab.decode
          (_update_context collab.decode st toks ids).generated_token_ids) ∧
    (generate collab eos_tokens prompt max_tokens start_ms
        envs).2.1.generated_text_so_far =
      collab.decode (generate collab eos_tokens prompt max_tokens start_ms
        envs).2.1.generated_token_ids ∧
    (∀ d, Event.done d ∈
        (generate collab eos_tokens prompt max_tokens start_ms envs).1 →
      d.generated_text = collab.decode
        (generate collab eos_tokens prompt max_tokens start_ms
          envs).2.1.generated_token_ids) := by
  have hmain := genLoop_text_decode collab eos_tokens max_tokens envs
    ⟨collab.apply_chat_template prompt, "", [], 0, 0⟩
    ((MetricsTracker.init 50).set_start_time start_ms)
    (generate collab eos_tokens prompt max_tokens start_ms envs).1
    (generate collab eos_tokens prompt max_tokens start_ms envs).2.1
    (generate collab eos_tokens prompt max_tokens start_ms envs).2.2
    rfl hdec.symm
  exact ⟨fun st toks ids => rfl, hmain.1, hmain.2⟩

/-- **C4 witness**: a trivial run with a decoder sending `[]` to `""`. -/
theorem c4_text_decode_witness :
    ((⟨fun _ => [], fun _ => [], fun _ => ""⟩ : DraftCollaborator).decode [] = "") ∧
    (generate ⟨fun _ => [], fun _ => [], fun _ => ""⟩ [] "p" 0 0
        []).2.1.generated_text_so_far =
      (⟨fun _ => [], fun _ => [], fun _ => ""⟩ : DraftCollaborator).decode
        (generate ⟨fun _ => [], fun _ => [], fun _ => ""⟩ [] "p" 0 0
          []).2.1.generated_token_ids :=
  ⟨rfl,
    (c4_text_decode ⟨fun _ => [], fun _ => [], fun _ => ""⟩ [] "p" 0 0 [] rfl).2.1⟩

/-- **C8**: terminal-event discipline of `generate`: at most one terminal
event is ever yielded; a completed run yields exactly one — a `done` or an
`error` — and it is the last event; any error event is the final event (so
no `done` is ever yielded after an `error`, and the generator terminates);
and every error event carries a collaborator failure's message together
with the failing round number. -/
theorem c8_terminal_events (collab : DraftCollaborator) (eos_tokens : List String)
    (prompt : String) (max_tokens : ℕ) (start_ms : ℚ) (envs : List RoundEnv) :
    ((generate collab eos_tokens prompt max_tokens start_ms envs).1.countP
        Event.isTerminal ≤ 1) ∧
    ((generate collab eos_tokens prompt max_tokens start_ms envs).2.2 = true →
      (generate collab eos_tokens prompt max_tokens start_ms envs).1.countP
        Event.isTerminal = 1 ∧
      ∃ e, (generate collab eos_tokens prompt max_tokens start_ms
          envs).1.getLast? = some e ∧ e.isTerminal = true) ∧
    (∀ e ∈ (generate collab eos_tokens prompt max_tokens start_ms envs).1,
      e.isError = true →
      (generate collab eos_tokens prompt max_tokens start_ms envs).1.getLast? =
        some e) ∧
    (∀ ev, Event.error ev ∈
        (generate collab eos_tokens prompt max_tokens start_ms envs).1 →
      ∃ j env msg, envs.get? j = some env ∧
        (env.draftResult = .error msg ∨ env.verifyResult = .error msg) ∧
        ev = ⟨msg, some (j + 1)⟩) := by
  have h := genLoop_terminal_spec collab eos_tokens max_tokens envs
    ⟨collab.apply_chat_template prompt, "", [], 0, 0⟩
    ((MetricsTracker.init 50).set_start_time start_ms)
    (generate collab eos_tokens prompt max_tokens start_ms envs).1
    (generate collab eos_tokens prompt max_tokens start_ms envs).2.1
    (generate collab eos_tokens prompt max_tokens start_ms envs).2.2
    rfl
  refine ⟨h.1, h.2.1, h.2.2.2.1, ?_⟩
  intro ev hev
  rcases h.2.2.2.2 ev hev with ⟨j, env, msg, hj, hkind, hev'⟩
  exact ⟨j, env, msg, hj, hkind, by simpa using hev'⟩

/-- **C8 witness**: a run with `max_tokens = 0` completes immediately with
exactly one terminal event, and it closes the stream. -/
theorem c8_terminal_events_witness :
    ((generate ⟨fun _ => [], fun _ => [], fun _ => ""⟩ [] "p" 0 0 []).2.2 =
      true) ∧
    ((generate ⟨fun _ => [], fun _ => [], fun _ => ""⟩ [] "p" 0 0 []).1.countP
        Event.isTerminal = 1 ∧
      ∃ e, (generate ⟨fun _ => [], fun _ => [], fun _ => ""⟩ [] "p" 0 0
          []).1.getLast? = some e ∧ e.isTerminal = true) :=
  ⟨rfl,
    (c8_terminal_events ⟨fun _ => [], fun _ => [], fun _ => ""⟩ [] "p" 0 0
      []).2.1 rfl⟩

/-- **C5 counterexample**: a round whose drafts are all accepted and whose
target returns strictly more positions, but whose (K+1)-th target token is
the empty string: `run_rejection_sampling` returns the bonus `some ""`,
yet the speculator's emission contains no Bonus VerifyResult event — the
`if round_result.bonus_token:` guard treats the empty string as falsy.
This refutes the claim's unconditional "the speculator emits it as a Bonus
VerifyResult with acceptance_prob = 1.0". -/
theorem c5_counterexample :
    ((run_rejection_sampling (fun _ => (1 / 2 : ℝ)) [⟨"a", 1, -1⟩]
        [⟨"a", [("a", -1)]⟩, ⟨"", [("", -1)]⟩]).bonus_token = some "") ∧
    ((_emit_verify_events (fun _ => [7])
        (run_rejection_sampling (fun _ => (1 / 2 : ℝ)) [⟨"a", 1, -1⟩]
          [⟨"a", [("a", -1)]⟩, ⟨"", [("", -1)]⟩])
        1 ⟨[⟨"a", -1, [("a", -1)], 0⟩, ⟨"", -1, [("", -1)], 0⟩], 10⟩ 6).1.countP
        (fun e => match e with
          | Event.verify v => v.status == TokenStatus.bonus
          | _ => false) = 0) :=
  ⟨rfl, rfl⟩
